import Mathlib

/-!
# Verification of the metafy-seo head-tag reconciliation engine

Shallow embedding of the core of the `metafy-seo` repository:

* `src/utils.ts` — `escapeHtml`, `upsertTag`, `deepMerge`;
* `src/SeoProvider.tsx` — `mergeConfig`;
* `src/SeoTags.tsx` — the reactive head reconciler (effect body and cleanup);
* `src/generateSeoMarkup.ts` — the static markup serializer.

JavaScript strings are modelled by `String`; JavaScript objects of unknown
shape (configs fed to `deepMerge`, structured-data objects) are modelled by
the JSON-like `Value` type with insertion-ordered association-list objects.
The document head is modelled as a list of elements carrying a unique
numeric identity, so that element identity (`added.includes(el)`) and
"pre-existing vs created" are expressible.
-/

namespace Metafy

/-- The double-quote character (code 34). -/
def qc : Char := Char.ofNat 34

/-- The apostrophe character (code 39). -/
def apo : Char := Char.ofNat 39

/-- Replace every occurrence of the single character `c` in `s` by the
string `r`.  This is the semantics of JavaScript
`s.replace(/c/g, r)` for a single-character pattern `c`. -/
def replaceChar : List Char → Char → List Char → List Char
  | [], _, _ => []
  | a :: rest, c, r => (if a = c then r else [a]) ++ replaceChar rest c r

/-- `escapeHtml` from `src/utils.ts`, on character lists: successively
replace `&`, `<`, `>`, `"`, `'` by their HTML entities.  The source's
`if (!str) return ''` guard is the identity on the empty list. -/
def escapeHtmlL (s : List Char) : List Char :=
  replaceChar
    (replaceChar
      (replaceChar
        (replaceChar
          (replaceChar s '&' "&amp;".data)
          '<' "&lt;".data)
        '>' "&gt;".data)
      qc "&quot;".data)
    apo "&#x27;".data

/-- `escapeHtml` from `src/utils.ts` (string version). -/
def escapeHtml (s : String) : String :=
  if s = "" then "" else ⟨escapeHtmlL s.data⟩

/-- Character-wise description of the escaping: the entity for one
character. -/
def escChar (c : Char) : List Char :=
  if c = '&' then "&amp;".data
  else if c = '<' then "&lt;".data
  else if c = '>' then "&gt;".data
  else if c = qc then "&quot;".data
  else if c = apo then "&#x27;".data
  else [c]

theorem replaceChar_append (a b : List Char) (c : Char) (r : List Char) :
    replaceChar (a ++ b) c r = replaceChar a c r ++ replaceChar b c r := by
  induction a with
  | nil => simp [replaceChar]
  | cons x xs ih => simp [replaceChar, ih]

theorem escapeHtmlL_cons (c : Char) (s : List Char) :
    escapeHtmlL (c :: s) = escChar c ++ escapeHtmlL s := by
  show escapeHtmlL ([c] ++ s) = _
  simp only [escapeHtmlL, replaceChar_append]
  by_cases h1 : c = '&'
  · subst h1; simp [replaceChar, escChar, qc, apo]
  · by_cases h2 : c = '<'
    · subst h2; simp [replaceChar, escChar, qc, apo]
    · by_cases h3 : c = '>'
      · subst h3; simp [replaceChar, escChar, qc, apo]
      · by_cases h4 : c = qc
        · subst h4; simp [replaceChar, escChar, qc, apo]
        · by_cases h5 : c = apo
          · subst h5; simp [replaceChar, escChar, qc, apo]
          · simp [replaceChar, escChar, h1, h2, h3, h4, h5]

theorem escapeHtmlL_eq_flat (s : List Char) :
    escapeHtmlL s = (s.map escChar).flatten := by
  induction s with
  | nil => rfl
  | cons c rest ih => rw [escapeHtmlL_cons, ih]; simp

/-- A character list is *fully escaped* when it is a concatenation of
HTML entities and characters other than `&`, `<`, `>`, `"`, `'`. -/
inductive Escaped : List Char → Prop
  | nil : Escaped []
  | ent (e : List Char)
      (he : e = "&amp;".data ∨ e = "&lt;".data ∨ e = "&gt;".data ∨
            e = "&quot;".data ∨ e = "&#x27;".data)
      (rest : List Char) : Escaped rest → Escaped (e ++ rest)
  | chr (c : Char) (hc : c ≠ '&' ∧ c ≠ '<' ∧ c ≠ '>' ∧ c ≠ qc ∧ c ≠ apo)
      (rest : List Char) : Escaped rest → Escaped (c :: rest)

theorem escaped_escapeHtmlL (s : List Char) : Escaped (escapeHtmlL s) := by
  rw [escapeHtmlL_eq_flat]
  induction s with
  | nil => exact Escaped.nil
  | cons c rest ih =>
    simp only [List.map_cons, List.flatten_cons]
    by_cases h1 : c = '&'
    · exact Escaped.ent _ (by subst h1; simp [escChar]) _ ih
    · by_cases h2 : c = '<'
      · exact Escaped.ent _ (by subst h2; simp [escChar, qc, apo]) _ ih
      · by_cases h3 : c = '>'
        · exact Escaped.ent _ (by subst h3; simp [escChar, qc, apo]) _ ih
        · by_cases h4 : c = qc
          · exact Escaped.ent _ (by subst h4; simp [escChar, qc, apo]) _ ih
          · by_cases h5 : c = apo
            · exact Escaped.ent _ (by subst h5; simp [escChar, qc, apo]) _ ih
            · have : escChar c = [c] := by simp [escChar, h1, h2, h3, h4, h5]
              rw [this]
              exact Escaped.chr c ⟨h1, h2, h3, h4, h5⟩ _ ih

/-! ## JSON-like values

JavaScript runtime values of unknown static shape (the records handed to
`deepMerge`, structured-data objects) are modelled by `Value`.  Objects
are insertion-ordered association lists, matching JavaScript's key
iteration order. -/

inductive Value where
  | null : Value
  | bool (b : Bool) : Value
  | num (n : Int) : Value
  | str (s : String) : Value
  | arr (items : List Value) : Value
  | obj (fields : List (String × Value)) : Value

/-- JavaScript truthiness of a `Value` (`undefined` is modelled as the
absence of a value, see `optTruthy`). -/
def Value.truthy : Value → Bool
  | .null => false
  | .bool b => b
  | .num n => n ≠ 0
  | .str s => s ≠ ""
  | .arr _ => true
  | .obj _ => true

/-- Truthiness of a possibly-undefined value. -/
def optTruthy : Option Value → Bool
  | none => false
  | some v => v.truthy

/-- JSON string escaping as performed by `JSON.stringify` on the string
values and keys it serializes (backslash, double quote and the common
control characters; other characters pass through). -/
def jsonEscapeChar (c : Char) : List Char :=
  if c = '\\' then ['\\', '\\']
  else if c = qc then ['\\', qc]
  else if c = '\n' then ['\\', 'n']
  else if c = '\t' then ['\\', 't']
  else if c = '\r' then ['\\', 'r']
  else [c]

def jsonEscape (s : String) : String :=
  ⟨(s.data.map jsonEscapeChar).flatten⟩

/-! `JSON.stringify` on `Value`s: the serialization used for
structured-data scripts and for the reconciler's pass-skipping
comparison.  Mutual recursion over the value / array items / object
fields. -/

mutual

def jsonStringify : Value → String
  | .null => "null"
  | .bool b => if b then "true" else "false"
  | .num n => toString n
  | .str s => String.singleton qc ++ jsonEscape s ++ String.singleton qc
  | .arr items => "[" ++ jsonStringifyItems items ++ "]"
  | .obj fields => "\x7b" ++ jsonStringifyFields fields ++ "\x7d"

def jsonStringifyItems : List Value → String
  | [] => ""
  | [v] => jsonStringify v
  | v :: rest => jsonStringify v ++ "," ++ jsonStringifyItems rest

def jsonStringifyFields : List (String × Value) → String
  | [] => ""
  | [(k, v)] =>
      String.singleton qc ++ jsonEscape k ++ String.singleton qc ++ ":" ++
        jsonStringify v
  | (k, v) :: rest =>
      String.singleton qc ++ jsonEscape k ++ String.singleton qc ++ ":" ++
        jsonStringify v ++ "," ++ jsonStringifyFields rest

end

/-! ## `deepMerge` (`src/utils.ts`)

`deepMerge(target, source)` copies `target` and then walks the keys of
`source`: when both sides hold a non-array, non-null object the values
are merged recursively, otherwise the source value wins.  Objects are
association lists; `lookupField` is JavaScript property access
(`undefined` = `none`) and `setField` is property assignment (update in
place, or append a new key, preserving insertion order). -/

def lookupField : List (String × Value) → String → Option Value
  | [], _ => none
  | (k, v) :: rest, key => if k = key then some v else lookupField rest key

def setField : List (String × Value) → String → Value → List (String × Value)
  | [], key, v => [(key, v)]
  | (k, w) :: rest, key, v =>
      if k = key then (k, v) :: rest else (k, w) :: setField rest key v

/-- Does the value satisfy
`typeof v === 'object' && v !== null && !Array.isArray(v)`? -/
def Value.isMergeObj : Value → Bool
  | .obj _ => true
  | _ => false

/-! `deepMergeLoop` is the body of `deepMerge`'s `for (const key in source)`
loop: `res` is the accumulator (`result`, initialised to a copy of the
target), `t` the original target (the source reads `target[key]`, not
`result[key]`), and the third argument the remaining source entries. -/

mutual

def deepMergeLoop (t res : List (String × Value)) :
    List (String × Value) → List (String × Value)
  | [] => res
  | (k, sv) :: rest =>
      match lookupField t k, sv with
      | some (Value.obj tf), Value.obj sf =>
          deepMergeLoop t (setField res k (Value.obj (deepMergeFields tf sf))) rest
      | _, _ => deepMergeLoop t (setField res k sv) rest

/-- `deepMerge` from `src/utils.ts`, on object field lists. -/
def deepMergeFields (t s : List (String × Value)) : List (String × Value) :=
  deepMergeLoop t t s

end

/-- `mergeConfig` from `src/SeoProvider.tsx`: deep-merge the provider
defaults with the call-site config, then force `defaults.titleTemplate`
whenever it is truthy and `config.titleTemplate` is *falsy*
(`defaults.titleTemplate && !config.titleTemplate`). -/
def mergeConfigFields (defaults config : List (String × Value)) :
    List (String × Value) :=
  let merged := deepMergeFields defaults config
  match lookupField defaults "titleTemplate" with
  | some dv =>
      if dv.truthy && !(optTruthy (lookupField config "titleTemplate")) then
        setField merged "titleTemplate" dv
      else merged
  | none => merged

/-! ## The `SeoConfig` data model (`src/types.ts`)

Optional scalar fields are `Option String`; a present-but-empty string is
distinct from an absent field, matching JavaScript `undefined` vs `""`.
The Open Graph section is an insertion-ordered association list because
both renderers iterate it with `Object.keys`. -/

structure OpenGraphImage where
  url : String
  alt : Option String := none
  width : Option Nat := none
  height : Option Nat := none
  type_ : Option String := none

/-- A nested Open Graph array element: either a primitive (rendered via
`String(item)`) or an `{actor, role\x7d` object (only meaningful under
`video.actors`). -/
inductive OgItem where
  | prim (s : String)
  | actorObj (actor : String) (role : Option String)

/-- A value of a field of a nested Open Graph sub-object
(article / book / profile / video). -/
inductive OgSubVal where
  | str (s : String)
  | arr (items : List OgItem)

/-- A top-level Open Graph field value.  Per the `OpenGraph` interface the
`images` list only occurs under the key `"images"` and nested sub-objects
under `article` / `book` / `profile` / `video`. -/
inductive OgVal where
  | str (s : String)
  | imgs (l : List OpenGraphImage)
  | sub (fields : List (String × OgSubVal))

structure IconsConfig where
  icon : Option String := none
  apple : Option String := none
  mask : Option (String × Option String) := none
  manifest : Option String := none

structure SiteVerification where
  google : Option String := none
  bing : Option String := none
  yandex : Option String := none
  pinterest : Option String := none

structure FacebookConfig where
  appId : Option String := none

structure ExtraMeta where
  name : Option String := none
  property : Option String := none
  content : String

structure ExtraLink where
  rel : String
  href : String
  rest : List (String × String) := []

structure SeoConfig where
  title : Option String := none
  titleTemplate : Option String := none
  description : Option String := none
  canonical : Option String := none
  robots : Option String := none
  noindex : Option Bool := none
  nofollow : Option Bool := none
  viewport : Option String := none
  themeColor : Option String := none
  author : Option String := none
  publisher : Option String := none
  language : Option String := none
  openGraph : Option (List (String × OgVal)) := none
  twitter : Option (List (String × String)) := none
  languageAlternates : Option (List (String × String)) := none
  icons : Option IconsConfig := none
  siteVerification : Option SiteVerification := none
  facebook : Option FacebookConfig := none
  extraMeta : Option (List ExtraMeta) := none
  extraLinks : Option (List ExtraLink) := none
  structuredData : Option (List Value) := none

/-- Truthiness of an optional string field (`undefined` and `""` are
falsy). -/
def strTruthy : Option String → Bool
  | none => false
  | some s => s ≠ ""

/-- Value of a truthy optional string, `""` otherwise. -/
def strVal : Option String → String
  | none => ""
  | some s => s

/-- The robots resolution shared (verbatim) by `SeoTags.tsx` and
`generateSeoMarkup.ts`:

```
let robotsContent = config.robots
const noindex = config.noindex === true
const nofollow = config.nofollow === true
if (noindex && nofollow) robotsContent = 'noindex,nofollow'
else if (noindex) robotsContent = 'noindex'
else if (nofollow) robotsContent = 'nofollow'
```
-/
def robotsContent (cfg : SeoConfig) : Option String :=
  let noindex := cfg.noindex = some true
  let nofollow := cfg.nofollow = some true
  if noindex ∧ nofollow then some "noindex,nofollow"
  else if noindex then some "noindex"
  else if nofollow then some "nofollow"
  else cfg.robots

/-- `'%s'.replace` on character lists: replace the first occurrence of
`%s` (JavaScript `String.prototype.replace` with a string pattern
replaces only the first match). -/
def replaceFirstPercentS : List Char → List Char → List Char
  | [], _ => []
  | ['%'], _ => ['%']
  | '%' :: 's' :: rest, rep => rep ++ rest
  | c :: rest, rep => c :: replaceFirstPercentS rest rep

/-- The title text: `config.titleTemplate ? titleTemplate.replace('%s',
title) : title` (shared by both renderers). -/
def titleText (cfg : SeoConfig) : String :=
  if strTruthy cfg.titleTemplate then
    ⟨replaceFirstPercentS (strVal cfg.titleTemplate).data (strVal cfg.title).data⟩
  else strVal cfg.title

/-! ## Static markup serializer (`src/generateSeoMarkup.ts`) -/

/-- The `m` helper: build a `<meta>` tag string, HTML-escaping every
attribute value. -/
def metaTag (attrs : List (String × String)) : String :=
  "<meta " ++
    String.intercalate " "
      (attrs.map (fun p => p.1 ++ "=" ++ String.singleton qc ++
        escapeHtml p.2 ++ String.singleton qc)) ++ ">"

/-- The `l` helper: build a `<link>` tag string, HTML-escaping `rel`,
`href` and every extra attribute value. -/
def linkTag (rel href : String) (extraAttrs : List (String × String) := []) :
    String :=
  let extras := String.intercalate " "
    (extraAttrs.map (fun p => p.1 ++ "=" ++ String.singleton qc ++
      escapeHtml p.2 ++ String.singleton qc))
  "<link rel=" ++ String.singleton qc ++ escapeHtml rel ++
    String.singleton qc ++ " href=" ++ String.singleton qc ++
    escapeHtml href ++ String.singleton qc ++
    (if extras = "" then "" else " " ++ extras) ++ ">"

/-- The `<title>` tag string: the (templated) title text is
HTML-escaped. -/
def titleTag (s : String) : String :=
  "<title>" ++ escapeHtml s ++ "</title>"

/-- A language-alternate link string: `hreflang` and `href` values are
HTML-escaped. -/
def altLinkTag (lang href : String) : String :=
  "<link rel=" ++ String.singleton qc ++ "alternate" ++
    String.singleton qc ++ " hreflang=" ++ String.singleton qc ++
    escapeHtml lang ++ String.singleton qc ++ " href=" ++
    String.singleton qc ++ escapeHtml href ++ String.singleton qc ++ ">"

/-- One Open Graph image in static mode. -/
def ogImageTags (img : OpenGraphImage) : List String :=
  [metaTag [("property", "og:image"), ("content", img.url)]] ++
  (if strTruthy img.alt then
    [metaTag [("property", "og:image:alt"), ("content", strVal img.alt)]]
  else []) ++
  (match img.width with
   | some w => if w ≠ 0 then
       [metaTag [("property", "og:image:width"), ("content", toString w)]]
     else []
   | none => []) ++
  (match img.height with
   | some h => if h ≠ 0 then
       [metaTag [("property", "og:image:height"), ("content", toString h)]]
     else []
   | none => []) ++
  (if strTruthy img.type_ then
    [metaTag [("property", "og:image:type"), ("content", strVal img.type_)]]
  else [])

/-- One element of a nested Open Graph array in static mode (`key` is the
top-level key, `nk` the nested key, `pfx` = `og:` ++ key). -/
def ogItemTags (key nk pfx : String) : OgItem → List String
  | .prim s => [metaTag [("property", pfx ++ ":" ++ nk), ("content", s)]]
  | .actorObj actor role =>
      if key = "video" ∧ nk = "actors" then
        [metaTag [("property", pfx ++ ":actor"), ("content", actor)]] ++
        (if strTruthy role then
          [metaTag [("property", pfx ++ ":actor:role"), ("content", strVal role)]]
        else [])
      else []

/-- One nested Open Graph field in static mode.  An empty-string nested
value is falsy and skipped; arrays (even empty) are truthy. -/
def ogSubTags (key pfx : String) : String × OgSubVal → List String
  | (nk, .str s) =>
      if s = "" then []
      else [metaTag [("property", pfx ++ ":" ++ nk), ("content", s)]]
  | (nk, .arr items) => (items.map (ogItemTags key nk pfx)).flatten

/-- One top-level Open Graph entry in static mode.  `!val` skips empty
strings; object and array values are always truthy.  The `images` list is
handled specially under the key `"images"` (the `OpenGraph` interface
admits it nowhere else). -/
def ogTags : String × OgVal → List String
  | (key, .str s) =>
      if s = "" then []
      else [metaTag [("property", "og:" ++ key), ("content", s)]]
  | (key, .imgs l) =>
      if key = "images" then (l.map ogImageTags).flatten else []
  | (key, .sub fields) =>
      (fields.map (ogSubTags key ("og:" ++ key))).flatten

/-- One Twitter Card entry in static mode. -/
def twitterTags : String × String → List String
  | (key, v) =>
      if v = "" then []
      else if key = "imageAlt" then
        [metaTag [("name", "twitter:image:alt"), ("content", v)]]
      else [metaTag [("name", "twitter:" ++ key), ("content", v)]]

/-- One extra meta entry in static mode: `name` wins over `property`;
neither truthy emits nothing. -/
def extraMetaTags (x : ExtraMeta) : List String :=
  if strTruthy x.name then
    [metaTag [("name", strVal x.name), ("content", x.content)]]
  else if strTruthy x.property then
    [metaTag [("property", strVal x.property), ("content", x.content)]]
  else []

/-- One structured-data script in static mode: the JSON is *not*
HTML-escaped. -/
def structuredDataTag (v : Value) : String :=
  "<script type=" ++ String.singleton qc ++ "application/ld+json" ++
    String.singleton qc ++ ">" ++ jsonStringify v ++ "</script>"

/-- The `tags` array built by `generateSeoMarkup` (`src/generateSeoMarkup.ts`),
in source push order. -/
def seoTags (cfg : SeoConfig) : List String :=
  (if strTruthy cfg.title then [titleTag (titleText cfg)]
  else []) ++
  (if strTruthy cfg.description then
    [metaTag [("name", "description"), ("content", strVal cfg.description)]]
  else []) ++
  (if strTruthy (robotsContent cfg) then
    [metaTag [("name", "robots"), ("content", strVal (robotsContent cfg))]]
  else []) ++
  (if strTruthy cfg.viewport then
    [metaTag [("name", "viewport"), ("content", strVal cfg.viewport)]]
  else []) ++
  (if strTruthy cfg.themeColor then
    [metaTag [("name", "theme-color"), ("content", strVal cfg.themeColor)]]
  else []) ++
  (if strTruthy cfg.canonical then [linkTag "canonical" (strVal cfg.canonical)]
  else []) ++
  (if strTruthy cfg.author then
    [metaTag [("name", "author"), ("content", strVal cfg.author)]]
  else []) ++
  (if strTruthy cfg.publisher then
    [metaTag [("name", "publisher"), ("content", strVal cfg.publisher)]]
  else []) ++
  (if strTruthy cfg.language then
    [metaTag [("name", "language"), ("content", strVal cfg.language)]]
  else []) ++
  (match cfg.siteVerification with
   | some sv =>
      (if strTruthy sv.google then
        [metaTag [("name", "google-site-verification"), ("content", strVal sv.google)]]
      else []) ++
      (if strTruthy sv.bing then
        [metaTag [("name", "msvalidate.01"), ("content", strVal sv.bing)]]
      else []) ++
      (if strTruthy sv.yandex then
        [metaTag [("name", "yandex-verification"), ("content", strVal sv.yandex)]]
      else []) ++
      (if strTruthy sv.pinterest then
        [metaTag [("name", "p:domain_verify"), ("content", strVal sv.pinterest)]]
      else [])
   | none => []) ++
  (match cfg.facebook with
   | some fb =>
      if strTruthy fb.appId then
        [metaTag [("property", "fb:app_id"), ("content", strVal fb.appId)]]
      else []
   | none => []) ++
  (match cfg.languageAlternates with
   | some la => la.map (fun p => altLinkTag p.1 p.2)
   | none => []) ++
  (match cfg.icons with
   | some ic =>
      (if strTruthy ic.icon then [linkTag "icon" (strVal ic.icon)] else []) ++
      (if strTruthy ic.apple then [linkTag "apple-touch-icon" (strVal ic.apple)]
      else []) ++
      (match ic.mask with
       | some (url, color) =>
          [linkTag "mask-icon" url
            [("color", if strTruthy color then strVal color else "#000000")]]
       | none => []) ++
      (if strTruthy ic.manifest then [linkTag "manifest" (strVal ic.manifest)]
      else [])
   | none => []) ++
  (match cfg.openGraph with
   | some og => (og.map ogTags).flatten
   | none => []) ++
  (match cfg.twitter with
   | some tw => (tw.map twitterTags).flatten
   | none => []) ++
  (match cfg.extraMeta with
   | some xs => (xs.map extraMetaTags).flatten
   | none => []) ++
  (match cfg.extraLinks with
   | some xs => xs.map (fun x => linkTag x.rel x.href x.rest)
   | none => []) ++
  (match cfg.structuredData with
   | some sd => if sd.isEmpty then [] else sd.map structuredDataTag
   | none => [])

/-- `generateSeoMarkup` (`src/generateSeoMarkup.ts`): the tag strings
joined by newlines. -/
def generateSeoMarkup (cfg : SeoConfig) : String :=
  String.intercalate "\n" (seoTags cfg)

/-! ## Reactive head reconciler (`src/SeoTags.tsx`)

The document head is a list of elements with unique numeric identities
(`Dom.nextId` is the allocation counter).  A reconciliation pass threads
a `PassSt`: the head, the `added` ownership record of the current pass,
and a count of DOM mutations performed (every `setAttribute`,
`appendChild`, `removeChild` and `textContent` assignment counts one). -/

/-- String `s` starts with `pre` (the `^=` attribute selector). -/
def begins (s pre : String) : Bool := List.isPrefixOf pre.data s.data

def lookupAttr : List (String × String) → String → Option String
  | [], _ => none
  | (k, v) :: rest, key => if k = key then some v else lookupAttr rest key

def setAttrList : List (String × String) → String → String → List (String × String)
  | [], key, v => [(key, v)]
  | (k, w) :: rest, key, v =>
      if k = key then (k, v) :: rest else (k, w) :: setAttrList rest key v

structure El where
  id : Nat
  tag : String
  attrs : List (String × String)
  text : Option String
deriving DecidableEq, Repr

/-- `el.setAttribute(k, v)`. -/
def El.setAttr (e : El) (k v : String) : El :=
  { e with attrs := setAttrList e.attrs k v }

def El.setAttrs (e : El) (attrs : List (String × String)) : El :=
  attrs.foldl (fun e p => e.setAttr p.1 p.2) e

structure Dom where
  els : List El
  nextId : Nat
deriving DecidableEq, Repr

structure PassSt where
  dom : Dom
  added : List Nat
  muts : Nat
deriving DecidableEq, Repr

/-- `upsertTag` from `src/utils.ts`: find the first element matching
`tag[uniqueKey="uniqueValue"]`; update it in place if found, else create
it, set the identifying attribute, append it to the head and record it in
`added`; in both cases set all of `attrs`.  Returns the state unchanged
when running on the server. -/
def upsertTag (server : Bool) (st : PassSt) (tag uniqueKey uniqueValue : String)
    (attrs : List (String × String)) : PassSt :=
  if server then st
  else
    match st.dom.els.find? (fun e =>
        e.tag == tag && lookupAttr e.attrs uniqueKey == some uniqueValue) with
    | some e =>
        { st with
          dom := { st.dom with
            els := st.dom.els.map (fun x =>
              if x.id = e.id then x.setAttrs attrs else x) }
          muts := st.muts + attrs.length }
    | none =>
        let el0 : El := El.setAttrs
          ⟨st.dom.nextId, tag, [(uniqueKey, uniqueValue)], none⟩ attrs
        { dom := { els := st.dom.els ++ [el0], nextId := st.dom.nextId + 1 }
          added := st.added ++ [st.dom.nextId]
          muts := st.muts + 2 + attrs.length }

/-- The `addMeta` helper of the effect body. -/
def addMeta (st : PassSt) (uniqueKey uniqueValue content : String) : PassSt :=
  if content = "" then st
  else upsertTag false st "meta" uniqueKey uniqueValue
    [(uniqueKey, uniqueValue), ("content", content)]

/-- The `addLink` helper of the effect body. -/
def addLink (st : PassSt) (rel href : String)
    (extraAttrs : List (String × String) := []) : PassSt :=
  if href = "" then st
  else upsertTag false st "link" "rel" rel
    ([("rel", rel), ("href", href)] ++ extraAttrs)

/-- `querySelectorAll(sel).forEach(el => !added.includes(el) &&
head.removeChild(el))`: remove every element satisfying `p` that is not
in the ownership record being built. -/
def clearNotAdded (st : PassSt) (p : El → Bool) : PassSt :=
  { st with
    dom := { st.dom with
      els := st.dom.els.filter (fun e => !(p e && !(st.added.contains e.id))) }
    muts := st.muts +
      (st.dom.els.filter (fun e => p e && !(st.added.contains e.id))).length }

/-- Create an element, set its attributes and text, append it and record
it (`document.createElement` + `appendChild` + `added.push`). -/
def createAppend (st : PassSt) (tag : String) (attrs : List (String × String))
    (text : Option String) : PassSt :=
  { dom := { els := st.dom.els ++ [⟨st.dom.nextId, tag, attrs, text⟩]
             nextId := st.dom.nextId + 1 }
    added := st.added ++ [st.dom.nextId]
    muts := st.muts + 1 + attrs.length + (if text.isSome then 1 else 0) }

/-- Step 1 of the effect body: the `<title>` tag.  A pre-existing title
is updated in place and not recorded; a missing one is created and
recorded. -/
def titleStep (cfg : SeoConfig) (st : PassSt) : PassSt :=
  if strTruthy cfg.title then
    match st.dom.els.find? (fun e => e.tag == "title") with
    | some e =>
        { st with
          dom := { st.dom with
            els := st.dom.els.map (fun x =>
              if x.id = e.id then { x with text := some (titleText cfg) } else x) }
          muts := st.muts + 1 }
    | none =>
        createAppend st "title" [] (some (titleText cfg))
  else st

/-- Selector `meta[property^="og:image"]`. -/
def isOgImageEl (e : El) : Bool :=
  e.tag == "meta" &&
    (match lookupAttr e.attrs "property" with
     | some v => begins v "og:image"
     | none => false)

/-- Selector `meta[property="<p>"]`. -/
def isPropEl (p : String) (e : El) : Bool :=
  e.tag == "meta" && lookupAttr e.attrs "property" == some p

/-- Selector `script[type="application/ld+json"][data-metafy^="structured-"]`. -/
def isStructuredEl (e : El) : Bool :=
  e.tag == "script" && lookupAttr e.attrs "type" == some "application/ld+json" &&
    (match lookupAttr e.attrs "data-metafy" with
     | some v => begins v "structured-"
     | none => false)

/-- Selector `meta[data-metafy^="extra-meta"]`. -/
def isExtraMetaEl (e : El) : Bool :=
  e.tag == "meta" &&
    (match lookupAttr e.attrs "data-metafy" with
     | some v => begins v "extra-meta"
     | none => false)

/-- Selector `link[data-metafy^="extra-link"]`. -/
def isExtraLinkEl (e : El) : Bool :=
  e.tag == "link" &&
    (match lookupAttr e.attrs "data-metafy" with
     | some v => begins v "extra-link"
     | none => false)

/-- One Open Graph image in reactive mode (`addMeta` per present field;
a zero width/height is falsy and skipped). -/
def imgStepR (st : PassSt) (img : OpenGraphImage) : PassSt :=
  let st := addMeta st "property" "og:image" img.url
  let st := addMeta st "property" "og:image:alt" (strVal img.alt)
  let st := match img.width with
    | some w => if w ≠ 0 then addMeta st "property" "og:image:width" (toString w) else st
    | none => st
  let st := match img.height with
    | some h => if h ≠ 0 then addMeta st "property" "og:image:height" (toString h) else st
    | none => st
  addMeta st "property" "og:image:type" (strVal img.type_)

/-- One element of a nested Open Graph array in reactive mode. -/
def ogItemStepR (key nk pfx : String) (st : PassSt) : OgItem → PassSt
  | .prim s => addMeta st "property" (pfx ++ ":" ++ nk) s
  | .actorObj actor role =>
      if key = "video" ∧ nk = "actors" then
        let st := addMeta st "property" (pfx ++ ":actor") actor
        if strTruthy role then
          addMeta st "property" (pfx ++ ":actor:role") (strVal role)
        else st
      else st

/-- One nested Open Graph field in reactive mode; array-valued nested
fields are wholesale-replaced: clear every `meta[property="og:key:nk"]`
not in the current ownership record, then re-emit. -/
def ogSubStepR (key pfx : String) (st : PassSt) : String × OgSubVal → PassSt
  | (nk, .str s) =>
      if s = "" then st else addMeta st "property" (pfx ++ ":" ++ nk) s
  | (nk, .arr items) =>
      let st := clearNotAdded st (isPropEl (pfx ++ ":" ++ nk))
      items.foldl (ogItemStepR key nk pfx) st

/-- One top-level Open Graph entry in reactive mode.  The `images` list
is wholesale-replaced: clear every `meta[property^="og:image"]` not in
the current ownership record, then re-emit. -/
def ogStepR (st : PassSt) : String × OgVal → PassSt
  | (key, .str s) =>
      if s = "" then st else addMeta st "property" ("og:" ++ key) s
  | (key, .imgs l) =>
      if key = "images" then
        let st := clearNotAdded st isOgImageEl
        l.foldl imgStepR st
      else st
  | (key, .sub fields) =>
      fields.foldl (ogSubStepR key ("og:" ++ key)) st

/-- One Twitter Card entry in reactive mode. -/
def twStepR (st : PassSt) : String × String → PassSt
  | (key, v) =>
      if v = "" then st
      else if key = "imageAlt" then addMeta st "name" "twitter:image:alt" v
      else addMeta st "name" ("twitter:" ++ key) v

/-- One structured-data script in reactive mode (created fresh each
pass, tagged `data-metafy="structured-<i>"`). -/
def structuredStepR (st : PassSt) (iv : Nat × Value) : PassSt :=
  createAppend st "script"
    [("type", "application/ld+json"),
     ("data-metafy", "structured-" ++ toString iv.1)]
    (some (jsonStringify iv.2))

/-- One extra meta entry in reactive mode. -/
def extraMetaStepR (st : PassSt) (ix : Nat × ExtraMeta) : PassSt :=
  createAppend st "meta"
    ((if strTruthy ix.2.name then [("name", strVal ix.2.name)]
      else if strTruthy ix.2.property then [("property", strVal ix.2.property)]
      else []) ++
     [("content", ix.2.content),
      ("data-metafy", "extra-meta-" ++ toString ix.1)])
    none

/-- One extra link entry in reactive mode. -/
def extraLinkStepR (st : PassSt) (ix : Nat × ExtraLink) : PassSt :=
  createAppend st "link"
    ([("rel", ix.2.rel), ("href", ix.2.href)] ++ ix.2.rest ++
     [("data-metafy", "extra-link-" ++ toString ix.1)])
    none

/-- Pair each list element with its index (`forEach((x, i) => ...)`). -/
def withIdx {α : Type} (l : List α) : List (Nat × α) :=
  (List.range l.length).zip l

/-! The body of the `useEffect` in `SeoTags.tsx`, split into the stages
of the source (numbered comments 1-8 there), composed by `runPass`
below.  Each stage threads the `PassSt`; the order of operations is the
source order. -/

/-- Step 2 of the effect body: the core scalar metas and the canonical
link. -/
def coreMetaStage (cfg : SeoConfig) (st : PassSt) : PassSt :=
  let st := addMeta st "name" "description" (strVal cfg.description)
  let st := addMeta st "name" "robots" (strVal (robotsContent cfg))
  let st := addMeta st "name" "viewport" (strVal cfg.viewport)
  let st := addMeta st "name" "theme-color" (strVal cfg.themeColor)
  let st := addMeta st "name" "author" (strVal cfg.author)
  let st := addMeta st "name" "publisher" (strVal cfg.publisher)
  let st := addMeta st "name" "language" (strVal cfg.language)
  addLink st "canonical" (strVal cfg.canonical)

/-- Site-verification metas. -/
def svStage (cfg : SeoConfig) (st : PassSt) : PassSt :=
  match cfg.siteVerification with
  | some sv =>
      let st := addMeta st "name" "google-site-verification" (strVal sv.google)
      let st := addMeta st "name" "msvalidate.01" (strVal sv.bing)
      let st := addMeta st "name" "yandex-verification" (strVal sv.yandex)
      addMeta st "name" "p:domain_verify" (strVal sv.pinterest)
  | none => st

/-- Facebook app-id meta. -/
def fbStage (cfg : SeoConfig) (st : PassSt) : PassSt :=
  match cfg.facebook with
  | some fb => addMeta st "property" "fb:app_id" (strVal fb.appId)
  | none => st

/-- Step 3: language alternates, upserted by `hreflang`. -/
def altStage (cfg : SeoConfig) (st : PassSt) : PassSt :=
  match cfg.languageAlternates with
  | some la =>
      la.foldl (fun st p =>
        upsertTag false st "link" "hreflang" p.1
          [("rel", "alternate"), ("hreflang", p.1), ("href", p.2)]) st
  | none => st

/-- Step 4: icon links. -/
def iconsStage (cfg : SeoConfig) (st : PassSt) : PassSt :=
  match cfg.icons with
  | some ic =>
      let st := addLink st "icon" (strVal ic.icon)
      let st := addLink st "apple-touch-icon" (strVal ic.apple)
      let st := addLink st "manifest" (strVal ic.manifest)
      match ic.mask with
      | some (url, color) =>
          addLink st "mask-icon" url
            [("color", if strTruthy color then strVal color else "#000000")]
      | none => st
  | none => st

/-- Step 5: Open Graph. -/
def ogStage (cfg : SeoConfig) (st : PassSt) : PassSt :=
  match cfg.openGraph with
  | some og => og.foldl ogStepR st
  | none => st

/-- Step 6: Twitter Card. -/
def twStage (cfg : SeoConfig) (st : PassSt) : PassSt :=
  match cfg.twitter with
  | some tw => tw.foldl twStepR st
  | none => st

/-- Step 7: structured data (clear non-owned tagged scripts, then
re-emit). -/
def structuredStage (cfg : SeoConfig) (st : PassSt) : PassSt :=
  match cfg.structuredData with
  | some sd =>
      if sd.isEmpty then st
      else
        let st := clearNotAdded st isStructuredEl
        (withIdx sd).foldl structuredStepR st
  | none => st

/-- Step 8: extras (unconditional clears of non-owned tagged extras,
then re-emit). -/
def extrasStage (cfg : SeoConfig) (st : PassSt) : PassSt :=
  let st := clearNotAdded st isExtraMetaEl
  let st := clearNotAdded st isExtraLinkEl
  let st := match cfg.extraMeta with
    | some xs => (withIdx xs).foldl extraMetaStepR st
    | none => st
  match cfg.extraLinks with
  | some xs => (withIdx xs).foldl extraLinkStepR st
  | none => st

/-- The body of the `useEffect` in `SeoTags.tsx`, run on the client with
a fresh empty ownership record: the stages above in source order. -/
def runPass (cfg : SeoConfig) (d : Dom) : PassSt :=
  extrasStage cfg (structuredStage cfg (twStage cfg (ogStage cfg (iconsStage cfg
    (altStage cfg (fbStage cfg (svStage cfg (coreMetaStage cfg
      (titleStep cfg ⟨d, [], 0⟩)))))))))

/-- The cleanup closure returned by the effect:
`added.forEach(el => head.contains(el) && head.removeChild(el))`. -/
def cleanup (d : Dom) (added : List Nat) : Dom :=
  { d with els := d.els.filter (fun e => !(added.contains e.id)) }

/-! ### Serialization of a config (`JSON.stringify(config)`), used for
the pass-skipping comparison. -/

def optStrField (k : String) : Option String → List (String × Value)
  | some s => [(k, Value.str s)]
  | none => []

def optBoolField (k : String) : Option Bool → List (String × Value)
  | some b => [(k, Value.bool b)]
  | none => []

def ogImageToValue (img : OpenGraphImage) : Value :=
  Value.obj ([("url", Value.str img.url)] ++
    optStrField "alt" img.alt ++
    (match img.width with | some w => [("width", Value.num w)] | none => []) ++
    (match img.height with | some h => [("height", Value.num h)] | none => []) ++
    optStrField "type" img.type_)

def ogItemToValue : OgItem → Value
  | .prim s => Value.str s
  | .actorObj a r => Value.obj ([("actor", Value.str a)] ++ optStrField "role" r)

def ogSubValToValue : OgSubVal → Value
  | .str s => Value.str s
  | .arr items => Value.arr (items.map ogItemToValue)

def ogValToValue : OgVal → Value
  | .str s => Value.str s
  | .imgs l => Value.arr (l.map ogImageToValue)
  | .sub fields => Value.obj (fields.map (fun p => (p.1, ogSubValToValue p.2)))

def configToValue (cfg : SeoConfig) : Value :=
  Value.obj (
    optStrField "title" cfg.title ++
    optStrField "titleTemplate" cfg.titleTemplate ++
    optStrField "description" cfg.description ++
    optStrField "canonical" cfg.canonical ++
    optStrField "robots" cfg.robots ++
    optBoolField "noindex" cfg.noindex ++
    optBoolField "nofollow" cfg.nofollow ++
    optStrField "viewport" cfg.viewport ++
    optStrField "themeColor" cfg.themeColor ++
    optStrField "author" cfg.author ++
    optStrField "publisher" cfg.publisher ++
    optStrField "language" cfg.language ++
    (match cfg.openGraph with
     | some og =>
        [("openGraph", Value.obj (og.map (fun p => (p.1, ogValToValue p.2))))]
     | none => []) ++
    (match cfg.twitter with
     | some tw =>
        [("twitter", Value.obj (tw.map (fun p => (p.1, Value.str p.2))))]
     | none => []) ++
    (match cfg.languageAlternates with
     | some la =>
        [("languageAlternates", Value.obj (la.map (fun p => (p.1, Value.str p.2))))]
     | none => []) ++
    (match cfg.icons with
     | some ic =>
        [("icons", Value.obj (
          optStrField "icon" ic.icon ++ optStrField "apple" ic.apple ++
          (match ic.mask with
           | some (url, color) =>
              [("mask", Value.obj ([("url", Value.str url)] ++
                optStrField "color" color))]
           | none => []) ++
          optStrField "manifest" ic.manifest))]
     | none => []) ++
    (match cfg.siteVerification with
     | some sv =>
        [("siteVerification", Value.obj (
          optStrField "google" sv.google ++ optStrField "bing" sv.bing ++
          optStrField "yandex" sv.yandex ++ optStrField "pinterest" sv.pinterest))]
     | none => []) ++
    (match cfg.facebook with
     | some fb => [("facebook", Value.obj (optStrField "appId" fb.appId))]
     | none => []) ++
    (match cfg.extraMeta with
     | some xs =>
        [("extraMeta", Value.arr (xs.map (fun x => Value.obj (
          optStrField "name" x.name ++ optStrField "property" x.property ++
          [("content", Value.str x.content)]))))]
     | none => []) ++
    (match cfg.extraLinks with
     | some xs =>
        [("extraLinks", Value.arr (xs.map (fun x => Value.obj (
          [("rel", Value.str x.rel), ("href", Value.str x.href)] ++
          x.rest.map (fun p => (p.1, Value.str p.2))))))]
     | none => []) ++
    (match cfg.structuredData with
     | some sd => [("structuredData", Value.arr sd)]
     | none => []))

/-- `JSON.stringify(config)`. -/
def stringifyConfig (cfg : SeoConfig) : String :=
  jsonStringify (configToValue cfg)

/-- Per-instance state across effect runs: `prevConfigRef.current` and
the last pass's ownership record. -/
structure InstSt where
  prev : String
  added : List Nat
deriving DecidableEq, Repr

/-- One invocation of the reactive entry point (`SeoTags` effect body):
no-op on the server; no-op when the serialized config is byte-identical
to the previous pass's; otherwise record the serialization and run the
pass.  Returns the new instance state, the new head and the number of
DOM mutations performed. -/
def reconcile (server : Bool) (cfg : SeoConfig) (inst : InstSt) (d : Dom) :
    InstSt × Dom × Nat :=
  if server then (inst, d, 0)
  else
    let cs := stringifyConfig cfg
    if cs = inst.prev then (inst, d, 0)
    else
      let p := runPass cfg d
      (⟨cs, p.added⟩, p.dom, p.muts)

/-! ## Lemmas about `deepMerge` -/

/-- The value stored by the loop body for one source key: the recursive
merge when both sides are plain objects, the source value otherwise. -/
def mergeVal (tv : Option Value) (sv : Value) : Value :=
  match tv, sv with
  | some (Value.obj tf), Value.obj sf => Value.obj (deepMergeFields tf sf)
  | _, _ => sv

theorem deepMergeLoop_cons (t res : List (String × Value)) (k : String)
    (sv : Value) (rest : List (String × Value)) :
    deepMergeLoop t res ((k, sv) :: rest) =
      deepMergeLoop t (setField res k (mergeVal (lookupField t k) sv)) rest := by
  cases htv : lookupField t k with
  | none => cases sv <;> simp [deepMergeLoop, mergeVal, htv]
  | some v => cases v <;> cases sv <;> simp [deepMergeLoop, mergeVal, htv]

theorem lookupField_setField_self (l : List (String × Value)) (k : String)
    (v : Value) : lookupField (setField l k v) k = some v := by
  induction l with
  | nil => simp [setField, lookupField]
  | cons p rest ih =>
    by_cases h : p.1 = k
    · simp [setField, lookupField, h]
    · simp [setField, lookupField, h, ih]

theorem lookupField_setField_ne (l : List (String × Value)) (k k' : String)
    (v : Value) (h : k' ≠ k) :
    lookupField (setField l k v) k' = lookupField l k' := by
  induction l with
  | nil => simp [setField, lookupField, Ne.symm h]
  | cons p rest ih =>
    by_cases hp : p.1 = k
    · simp [setField, lookupField, hp, Ne.symm h]
    · by_cases hp' : p.1 = k'
      · simp [setField, lookupField, hp, hp', h]
      · simp [setField, lookupField, hp, hp', ih]

theorem lookupField_eq_none (l : List (String × Value)) (k : String)
    (h : k ∉ l.map Prod.fst) : lookupField l k = none := by
  induction l with
  | nil => rfl
  | cons p rest ih =>
    simp only [List.map_cons, List.mem_cons] at h
    push_neg at h
    simp [lookupField, Ne.symm h.1, ih h.2]

theorem lookup_deepMergeLoop (t : List (String × Value)) :
    ∀ (s res : List (String × Value)) (k : String),
    (s.map Prod.fst).Nodup →
    lookupField (deepMergeLoop t res s) k =
      match lookupField s k with
      | none => lookupField res k
      | some sv => some (mergeVal (lookupField t k) sv)
  | [], res, k, _ => by simp [deepMergeLoop, lookupField]
  | (k', sv') :: rest, res, k, hnd => by
    rw [deepMergeLoop_cons]
    have hnd' : (rest.map Prod.fst).Nodup := by
      simpa [List.nodup_cons] using hnd.of_cons
    rw [lookup_deepMergeLoop t rest _ k hnd']
    by_cases hk : k = k'
    · subst hk
      have hnotin : k ∉ rest.map Prod.fst := by
        simp only [List.map_cons, List.nodup_cons] at hnd
        exact hnd.1
      rw [lookupField_eq_none rest k hnotin]
      simp [lookupField, lookupField_setField_self]
    · have : lookupField ((k', sv') :: rest) k = lookupField rest k := by
        simp [lookupField, Ne.symm hk]
      rw [this]
      cases lookupField rest k with
      | none => simp [lookupField_setField_ne _ _ _ _ hk]
      | some v => simp

theorem mergeVal_of_not_obj (tv : Option Value) (sv : Value)
    (h : sv.isMergeObj = false) : mergeVal tv sv = sv := by
  cases tv with
  | none => cases sv <;> simp_all [mergeVal, Value.isMergeObj]
  | some v => cases v <;> cases sv <;> simp_all [mergeVal, Value.isMergeObj]

/-- **C2** — Config-merge precedence: for every defaults object `t` and
override object `s` (with duplicate-free keys), `deepMerge` returns the
override's value for any non-object leaf the override defines, the
defaults' value for keys the override omits, and merges object-valued
fields present on both sides recursively field-by-field; on the spec's
example, `merge({title:"A", twitter:{site:"@x"\x7d\x7d, {title:"B"\x7d)`
yields `{title:"B", twitter:{site:"@x"\x7d\x7d`. -/
theorem deepMerge_precedence :
    (∀ (t s : List (String × Value)) (k : String) (sv : Value),
      (s.map Prod.fst).Nodup → lookupField s k = some sv →
      sv.isMergeObj = false →
      lookupField (deepMergeFields t s) k = some sv) ∧
    (∀ (t s : List (String × Value)) (k : String),
      (s.map Prod.fst).Nodup → lookupField s k = none →
      lookupField (deepMergeFields t s) k = lookupField t k) ∧
    (∀ (t s : List (String × Value)) (k : String)
      (tf sf : List (String × Value)),
      (s.map Prod.fst).Nodup → lookupField s k = some (Value.obj sf) →
      lookupField t k = some (Value.obj tf) →
      lookupField (deepMergeFields t s) k =
        some (Value.obj (deepMergeFields tf sf))) ∧
    deepMergeFields
        [("title", Value.str "A"), ("twitter", Value.obj [("site", Value.str "@x")])]
        [("title", Value.str "B")] =
      [("title", Value.str "B"), ("twitter", Value.obj [("site", Value.str "@x")])] := by
  refine ⟨?_, ?_, ?_, ?_⟩
  · intro t s k sv hnd hs hobj
    rw [deepMergeFields, lookup_deepMergeLoop t s t k hnd, hs]
    simp [mergeVal_of_not_obj _ _ hobj]
  · intro t s k hnd hs
    rw [deepMergeFields, lookup_deepMergeLoop t s t k hnd, hs]
  · intro t s k tf sf hnd hs ht
    rw [deepMergeFields, lookup_deepMergeLoop t s t k hnd, hs, ht]
    simp [mergeVal]
  · rw [deepMergeFields, deepMergeLoop_cons]
    simp [deepMergeLoop, mergeVal, lookupField, setField]

/-- Witness for `deepMerge_precedence`: the three hypotheses discharged
at the spec's own example. -/
theorem deepMerge_precedence_witness :
    lookupField (deepMergeFields
        [("title", Value.str "A"), ("twitter", Value.obj [("site", Value.str "@x")])]
        [("title", Value.str "B")]) "title" = some (Value.str "B") :=
  deepMerge_precedence.1
    [("title", Value.str "A"), ("twitter", Value.obj [("site", Value.str "@x")])]
    [("title", Value.str "B")] "title" (Value.str "B")
    (by simp) rfl rfl

/-- **C3** — the claim says an override `titleTemplate = ""` (falsy but
defined) must survive the merge; the code's
`defaults.titleTemplate && !config.titleTemplate` check treats the falsy
empty string as absent, so the default wins instead, contradicting the
claim and the code's own comment ("only use if not explicitly set in
config"). -/
theorem mergeConfig_titleTemplate_falsy_bug :
    lookupField (mergeConfigFields
        [("titleTemplate", Value.str "T")]
        [("titleTemplate", Value.str "")]) "titleTemplate" =
      some (Value.str "T") ∧
    lookupField (mergeConfigFields
        [("titleTemplate", Value.str "T")]
        [("titleTemplate", Value.str "")]) "titleTemplate" ≠
      some (Value.str "") := by
  have key : mergeConfigFields
      [("titleTemplate", Value.str "T")] [("titleTemplate", Value.str "")] =
      setField (deepMergeFields
        [("titleTemplate", Value.str "T")] [("titleTemplate", Value.str "")])
        "titleTemplate" (Value.str "T") := rfl
  rw [key, lookupField_setField_self]
  simp

/-- **C4** — Robots resolution policy: the flags dominate the explicit
`robots` string (`noindex,nofollow` / `noindex` / `nofollow`), else the
string is used, and the tag is omitted when nothing truthy resolves; at
`noindex=true, nofollow=false, robots="index,follow"` the output is
exactly `meta[name=robots][content=noindex]`. -/
theorem robots_resolution :
    (∀ cfg : SeoConfig,
      (cfg.noindex = some true → cfg.nofollow = some true →
        robotsContent cfg = some "noindex,nofollow") ∧
      (cfg.noindex = some true → ¬ cfg.nofollow = some true →
        robotsContent cfg = some "noindex") ∧
      (¬ cfg.noindex = some true → cfg.nofollow = some true →
        robotsContent cfg = some "nofollow") ∧
      (¬ cfg.noindex = some true → ¬ cfg.nofollow = some true →
        robotsContent cfg = cfg.robots)) ∧
    (∀ (noi nof : Option Bool) (rob : Option String),
      seoTags { noindex := noi, nofollow := nof, robots := rob } =
        match robotsContent { noindex := noi, nofollow := nof, robots := rob } with
        | some r => if r = "" then [] else [metaTag [("name", "robots"), ("content", r)]]
        | none => []) ∧
    generateSeoMarkup
        { noindex := some true, nofollow := some false, robots := some "index,follow" } =
      "<meta name=\"robots\" content=\"noindex\">" := by
  refine ⟨?_, ?_, rfl⟩
  · intro cfg
    refine ⟨fun h1 h2 => ?_, fun h1 h2 => ?_, fun h1 h2 => ?_, fun h1 h2 => ?_⟩ <;>
      simp [robotsContent, h1, h2]
  · intro noi nof rob
    cases hr : robotsContent { noindex := noi, nofollow := nof, robots := rob } with
    | none => simp [seoTags, hr, strTruthy, strVal]
    | some r =>
      by_cases hre : r = ""
      · subst hre; simp [seoTags, hr, strTruthy, strVal]
      · simp [seoTags, hr, strTruthy, strVal, hre]

/-- Witness for `robots_resolution`: both flags set. -/
theorem robots_resolution_witness :
    robotsContent { noindex := some true, nofollow := some true } =
      some "noindex,nofollow" :=
  (robots_resolution.1 { noindex := some true, nofollow := some true }).1 rfl rfl

theorem mem_if_sing {c : Prop} [Decidable c] {t x : String}
    (h : t ∈ (if c then [x] else [])) : t = x := by
  split at h
  · exact List.mem_singleton.mp h
  · exact absurd h (List.not_mem_nil t)

theorem ogImageTags_meta (img : OpenGraphImage) :
    ∀ t ∈ ogImageTags img, ∃ attrs, t = metaTag attrs := by
  intro t ht
  rw [ogImageTags] at ht
  simp only [List.mem_append] at ht
  rcases ht with ((((h | h) | h) | h) | h)
  · exact ⟨_, List.mem_singleton.mp h⟩
  · exact ⟨_, mem_if_sing h⟩
  · split at h
    · exact ⟨_, mem_if_sing h⟩
    · exact absurd h (List.not_mem_nil t)
  · split at h
    · exact ⟨_, mem_if_sing h⟩
    · exact absurd h (List.not_mem_nil t)
  · exact ⟨_, mem_if_sing h⟩

theorem ogItemTags_meta (key nk pfx : String) (it : OgItem) :
    ∀ t ∈ ogItemTags key nk pfx it, ∃ attrs, t = metaTag attrs := by
  intro t ht
  rcases it with s | ⟨actor, role⟩
  · simp only [ogItemTags] at ht
    exact ⟨_, List.mem_singleton.mp ht⟩
  · simp only [ogItemTags] at ht
    split at ht
    · simp only [List.mem_append] at ht
      rcases ht with h | h
      · exact ⟨_, List.mem_singleton.mp h⟩
      · exact ⟨_, mem_if_sing h⟩
    · exact absurd ht (List.not_mem_nil t)

theorem ogSubTags_meta (key pfx : String) (en : String × OgSubVal) :
    ∀ t ∈ ogSubTags key pfx en, ∃ attrs, t = metaTag attrs := by
  intro t ht
  obtain ⟨nk, sv⟩ := en
  rcases sv with s | items
  · simp only [ogSubTags] at ht
    split at ht
    · exact absurd ht (List.not_mem_nil t)
    · exact ⟨_, List.mem_singleton.mp ht⟩
  · simp only [ogSubTags] at ht
    obtain ⟨l, hl, htl⟩ := List.mem_flatten.mp ht
    obtain ⟨it, hit, rfl⟩ := List.mem_map.mp hl
    exact ogItemTags_meta key nk pfx it t htl

theorem ogTags_meta (en : String × OgVal) :
    ∀ t ∈ ogTags en, ∃ attrs, t = metaTag attrs := by
  intro t ht
  obtain ⟨key, v⟩ := en
  rcases v with s | l | fields
  · simp only [ogTags] at ht
    split at ht
    · exact absurd ht (List.not_mem_nil t)
    · exact ⟨_, List.mem_singleton.mp ht⟩
  · simp only [ogTags] at ht
    split at ht
    · obtain ⟨lt, hlt, htl⟩ := List.mem_flatten.mp ht
      obtain ⟨img, him, rfl⟩ := List.mem_map.mp hlt
      exact ogImageTags_meta img t htl
    · exact absurd ht (List.not_mem_nil t)
  · simp only [ogTags] at ht
    obtain ⟨lt, hlt, htl⟩ := List.mem_flatten.mp ht
    obtain ⟨en2, hen, rfl⟩ := List.mem_map.mp hlt
    exact ogSubTags_meta key _ en2 t htl

theorem twitterTags_meta (en : String × String) :
    ∀ t ∈ twitterTags en, ∃ attrs, t = metaTag attrs := by
  intro t ht
  obtain ⟨key, v⟩ := en
  simp only [twitterTags] at ht
  split at ht
  · exact absurd ht (List.not_mem_nil t)
  · split at ht
    · exact ⟨_, List.mem_singleton.mp ht⟩
    · exact ⟨_, List.mem_singleton.mp ht⟩

theorem extraMetaTags_meta (x : ExtraMeta) :
    ∀ t ∈ extraMetaTags x, ∃ attrs, t = metaTag attrs := by
  intro t ht
  simp only [extraMetaTags] at ht
  split at ht
  · exact ⟨_, List.mem_singleton.mp ht⟩
  · split at ht
    · exact ⟨_, List.mem_singleton.mp ht⟩
    · exact absurd ht (List.not_mem_nil t)

/-- Every tag the static serializer ever emits, for *every*
configuration, is produced by one of the escaping constructors
(`metaTag`, `linkTag`, `titleTag`, `altLinkTag`) — which HTML-escape
every attribute value and the title text — or is a structured-data
script (the one deliberate exception). -/
theorem seoTags_forms (cfg : SeoConfig) (t : String) (ht : t ∈ seoTags cfg) :
    (∃ v : Value, t = structuredDataTag v) ∨
    (∃ attrs, t = metaTag attrs) ∨
    (∃ rel href extra, t = linkTag rel href extra) ∨
    (∃ s, t = titleTag s) ∨
    (∃ lang href, t = altLinkTag lang href) := by
  rw [seoTags] at ht
  simp only [List.mem_append] at ht
  rcases ht with
    ((((((((((((((((h1 | h2) | h3) | h4) | h5) | h6) | h7) | h8) | h9) |
      h10) | h11) | h12) | h13) | h14) | h15) | h16) | h17) | h18
  · exact Or.inr (Or.inr (Or.inr (Or.inl ⟨_, mem_if_sing h1⟩)))
  · exact Or.inr (Or.inl ⟨_, mem_if_sing h2⟩)
  · exact Or.inr (Or.inl ⟨_, mem_if_sing h3⟩)
  · exact Or.inr (Or.inl ⟨_, mem_if_sing h4⟩)
  · exact Or.inr (Or.inl ⟨_, mem_if_sing h5⟩)
  · exact Or.inr (Or.inr (Or.inl ⟨_, _, _, mem_if_sing h6⟩))
  · exact Or.inr (Or.inl ⟨_, mem_if_sing h7⟩)
  · exact Or.inr (Or.inl ⟨_, mem_if_sing h8⟩)
  · exact Or.inr (Or.inl ⟨_, mem_if_sing h9⟩)
  · split at h10
    · simp only [List.mem_append] at h10
      rcases h10 with ((g1 | g2) | g3) | g4
      · exact Or.inr (Or.inl ⟨_, mem_if_sing g1⟩)
      · exact Or.inr (Or.inl ⟨_, mem_if_sing g2⟩)
      · exact Or.inr (Or.inl ⟨_, mem_if_sing g3⟩)
      · exact Or.inr (Or.inl ⟨_, mem_if_sing g4⟩)
    · exact absurd h10 (List.not_mem_nil t)
  · split at h11
    · exact Or.inr (Or.inl ⟨_, mem_if_sing h11⟩)
    · exact absurd h11 (List.not_mem_nil t)
  · split at h12
    · obtain ⟨p, hp, rfl⟩ := List.mem_map.mp h12
      exact Or.inr (Or.inr (Or.inr (Or.inr ⟨p.1, p.2, rfl⟩)))
    · exact absurd h12 (List.not_mem_nil t)
  · split at h13
    · simp only [List.mem_append] at h13
      rcases h13 with ((g1 | g2) | g3) | g4
      · exact Or.inr (Or.inr (Or.inl ⟨_, _, _, mem_if_sing g1⟩))
      · exact Or.inr (Or.inr (Or.inl ⟨_, _, _, mem_if_sing g2⟩))
      · split at g3
        · exact Or.inr (Or.inr (Or.inl ⟨_, _, _, List.mem_singleton.mp g3⟩))
        · exact absurd g3 (List.not_mem_nil t)
      · exact Or.inr (Or.inr (Or.inl ⟨_, _, _, mem_if_sing g4⟩))
    · exact absurd h13 (List.not_mem_nil t)
  · split at h14
    · obtain ⟨lt, hlt, htl⟩ := List.mem_flatten.mp h14
      obtain ⟨en, hen, rfl⟩ := List.mem_map.mp hlt
      exact Or.inr (Or.inl (ogTags_meta en t htl))
    · exact absurd h14 (List.not_mem_nil t)
  · split at h15
    · obtain ⟨lt, hlt, htl⟩ := List.mem_flatten.mp h15
      obtain ⟨en, hen, rfl⟩ := List.mem_map.mp hlt
      exact Or.inr (Or.inl (twitterTags_meta en t htl))
    · exact absurd h15 (List.not_mem_nil t)
  · split at h16
    · obtain ⟨lt, hlt, htl⟩ := List.mem_flatten.mp h16
      obtain ⟨x, hx, rfl⟩ := List.mem_map.mp hlt
      exact Or.inr (Or.inl (extraMetaTags_meta x t htl))
    · exact absurd h16 (List.not_mem_nil t)
  · split at h17
    · obtain ⟨x, hx, rfl⟩ := List.mem_map.mp h17
      exact Or.inr (Or.inr (Or.inl ⟨x.rel, x.href, x.rest, rfl⟩))
    · exact absurd h17 (List.not_mem_nil t)
  · split at h18
    · split at h18
      · exact absurd h18 (List.not_mem_nil t)
      · obtain ⟨v, hv, rfl⟩ := List.mem_map.mp h18
        exact Or.inl ⟨v, rfl⟩
    · exact absurd h18 (List.not_mem_nil t)

/-- **C6** — Static-mode escaping: for *every* configuration, every tag
the static serializer emits is built by `metaTag`, `linkTag`,
`titleTag` or `altLinkTag` — each of which inserts every attribute
value / text value through `escapeHtml` (stated as equations) — except
the structured-data scripts; `escapeHtml` output is a concatenation of
the five HTML entities and characters other than `&`, `<`, `>`, `"`,
`'` (so all five characters are escaped); and the spec's example
description serializes exactly as claimed. -/
theorem static_escaping :
    (∀ (cfg : SeoConfig) (t : String), t ∈ seoTags cfg →
      (∃ v : Value, t = structuredDataTag v) ∨
      (∃ attrs, t = metaTag attrs) ∨
      (∃ rel href extra, t = linkTag rel href extra) ∨
      (∃ s, t = titleTag s) ∨
      (∃ lang href, t = altLinkTag lang href)) ∧
    (∀ attrs : List (String × String), metaTag attrs =
      "<meta " ++ String.intercalate " " (attrs.map (fun p =>
        p.1 ++ "=" ++ String.singleton qc ++ escapeHtml p.2 ++
          String.singleton qc)) ++ ">") ∧
    (∀ (rel href : String) (extra : List (String × String)),
      linkTag rel href extra =
        "<link rel=" ++ String.singleton qc ++ escapeHtml rel ++
          String.singleton qc ++ " href=" ++ String.singleton qc ++
          escapeHtml href ++ String.singleton qc ++
          (if String.intercalate " " (extra.map (fun p =>
              p.1 ++ "=" ++ String.singleton qc ++ escapeHtml p.2 ++
                String.singleton qc)) = "" then ""
           else " " ++ String.intercalate " " (extra.map (fun p =>
              p.1 ++ "=" ++ String.singleton qc ++ escapeHtml p.2 ++
                String.singleton qc))) ++ ">") ∧
    (∀ s : String, titleTag s = "<title>" ++ escapeHtml s ++ "</title>") ∧
    (∀ lang href : String, altLinkTag lang href =
      "<link rel=" ++ String.singleton qc ++ "alternate" ++
        String.singleton qc ++ " hreflang=" ++ String.singleton qc ++
        escapeHtml lang ++ String.singleton qc ++ " href=" ++
        String.singleton qc ++ escapeHtml href ++ String.singleton qc ++ ">") ∧
    (∀ s : List Char, Escaped (escapeHtmlL s)) ∧
    (∀ d : String, d ≠ "" →
      seoTags { description := some d } =
        [metaTag [("name", "description"), ("content", d)]] ∧
      metaTag [("name", "description"), ("content", d)] =
        "<meta name=\"description\" content=\"" ++ escapeHtml d ++ "\">") ∧
    generateSeoMarkup { description := some "He said \"hi\" & <left>" } =
      "<meta name=\"description\" content=\"He said &quot;hi&quot; &amp; &lt;left&gt;\">" := by
  refine ⟨seoTags_forms, fun attrs => rfl, fun rel href extra => rfl,
    fun s => rfl, fun lang href => rfl, escaped_escapeHtmlL, ?_, rfl⟩
  intro d hd
  constructor
  · simp [seoTags, strTruthy, strVal, hd, robotsContent]
  · simp only [metaTag, List.map]
    rw [show ∀ a b : String, String.intercalate " " [a, b] = a ++ " " ++ b from
      fun a b => rfl]
    rw [show escapeHtml "description" = "description" from rfl]
    simp only [String.append_assoc]
    rw [show (String.singleton qc : String) = "\"" from rfl]
    rw [show ("\"" ++ ">" : String) = "\">" from by decide]
    rw [show ("<meta name=\"description\" content=\"" : String) =
      "<meta " ++ ("name" ++ ("=" ++ ("\"" ++ ("description" ++
        ("\"" ++ (" " ++ ("content" ++ ("=" ++ "\"")))))))) from by decide]
    simp only [String.append_assoc]

/-- Witness for `static_escaping`: the coverage conjunct at a concrete
config and tag, and the description equation at the spec's example. -/
theorem static_escaping_witness :
    ((∃ v : Value, metaTag [("name", "description"), ("content", "x")] =
        structuredDataTag v) ∨
     (∃ attrs, metaTag [("name", "description"), ("content", "x")] =
        metaTag attrs) ∨
     (∃ rel href extra, metaTag [("name", "description"), ("content", "x")] =
        linkTag rel href extra) ∨
     (∃ s, metaTag [("name", "description"), ("content", "x")] = titleTag s) ∨
     (∃ lang href, metaTag [("name", "description"), ("content", "x")] =
        altLinkTag lang href)) ∧
    seoTags { description := some "He said \"hi\" & <left>" } =
      [metaTag [("name", "description"), ("content", "He said \"hi\" & <left>")]] :=
  ⟨static_escaping.1 { description := some "x" }
      (metaTag [("name", "description"), ("content", "x")]) (by decide),
   (static_escaping.2.2.2.2.2.2.1 "He said \"hi\" & <left>" (by decide)).1⟩

/-- A core scalar meta chunk of the static serializer: emitted only when
the source field resolves to a non-empty value. -/
def coreMeta (name : String) (v : Option String) : List String :=
  if strTruthy v then [metaTag [("name", name), ("content", strVal v)]] else []

/-- The `<title>` chunk of the static serializer. -/
def titleChunk (cfg : SeoConfig) : List String :=
  if strTruthy cfg.title then [titleTag (titleText cfg)] else []

/-- The canonical-link chunk of the static serializer. -/
def canonicalChunk (cfg : SeoConfig) : List String :=
  if strTruthy cfg.canonical then [linkTag "canonical" (strVal cfg.canonical)]
  else []

/-- Everything the static serializer emits after the `language` meta
(site verification, fb:app_id, language alternates, icons, Open Graph,
Twitter, extras, structured data), in source order. -/
def seoTagsAfterLanguage (cfg : SeoConfig) : List String :=
  (match cfg.siteVerification with
   | some sv =>
      (if strTruthy sv.google then
        [metaTag [("name", "google-site-verification"), ("content", strVal sv.google)]]
      else []) ++
      (if strTruthy sv.bing then
        [metaTag [("name", "msvalidate.01"), ("content", strVal sv.bing)]]
      else []) ++
      (if strTruthy sv.yandex then
        [metaTag [("name", "yandex-verification"), ("content", strVal sv.yandex)]]
      else []) ++
      (if strTruthy sv.pinterest then
        [metaTag [("name", "p:domain_verify"), ("content", strVal sv.pinterest)]]
      else [])
   | none => []) ++
  (match cfg.facebook with
   | some fb =>
      if strTruthy fb.appId then
        [metaTag [("property", "fb:app_id"), ("content", strVal fb.appId)]]
      else []
   | none => []) ++
  (match cfg.languageAlternates with
   | some la => la.map (fun p => altLinkTag p.1 p.2)
   | none => []) ++
  (match cfg.icons with
   | some ic =>
      (if strTruthy ic.icon then [linkTag "icon" (strVal ic.icon)] else []) ++
      (if strTruthy ic.apple then [linkTag "apple-touch-icon" (strVal ic.apple)]
      else []) ++
      (match ic.mask with
       | some (url, color) =>
          [linkTag "mask-icon" url
            [("color", if strTruthy color then strVal color else "#000000")]]
       | none => []) ++
      (if strTruthy ic.manifest then [linkTag "manifest" (strVal ic.manifest)]
      else [])
   | none => []) ++
  (match cfg.openGraph with
   | some og => (og.map ogTags).flatten
   | none => []) ++
  (match cfg.twitter with
   | some tw => (tw.map twitterTags).flatten
   | none => []) ++
  (match cfg.extraMeta with
   | some xs => (xs.map extraMetaTags).flatten
   | none => []) ++
  (match cfg.extraLinks with
   | some xs => xs.map (fun x => linkTag x.rel x.href x.rest)
   | none => []) ++
  (match cfg.structuredData with
   | some sd => if sd.isEmpty then [] else sd.map structuredDataTag
   | none => [])

/-- **C7 (amended)** — Static serializer emission order: the core scalar
metas appear in the fixed order description, robots, viewport,
theme-color, author, publisher, language, each only when its source
field resolves to a non-empty value; the canonical link, however, is
emitted between the theme-color and author metas, not after all of the
core scalar metas. -/
theorem static_emission_order (cfg : SeoConfig) :
    seoTags cfg =
      titleChunk cfg ++
      coreMeta "description" cfg.description ++
      coreMeta "robots" (robotsContent cfg) ++
      coreMeta "viewport" cfg.viewport ++
      coreMeta "theme-color" cfg.themeColor ++
      canonicalChunk cfg ++
      coreMeta "author" cfg.author ++
      coreMeta "publisher" cfg.publisher ++
      coreMeta "language" cfg.language ++
      seoTagsAfterLanguage cfg := by
  simp only [seoTags, titleChunk, coreMeta, canonicalChunk, seoTagsAfterLanguage,
    List.append_assoc]

/-- **C7 (counterexample)** — with `themeColor="t"`, `canonical="c"`,
`author="a"` the canonical link is emitted *before* the author meta,
refuting "the canonical link is emitted after all of these core scalar
metas". -/
theorem static_emission_order_counterexample :
    generateSeoMarkup { themeColor := some "t", canonical := some "c", author := some "a" } =
      "<meta name=\"theme-color\" content=\"t\">\n<link rel=\"canonical\" href=\"c\">\n<meta name=\"author\" content=\"a\">" ∧
    generateSeoMarkup { themeColor := some "t", canonical := some "c", author := some "a" } ≠
      "<meta name=\"theme-color\" content=\"t\">\n<meta name=\"author\" content=\"a\">\n<link rel=\"canonical\" href=\"c\">" := by
  exact ⟨rfl, by decide⟩

/-- **C8** — Structured-data round-trip without HTML escaping: with a
non-empty structured-data list the static output is one script tag per
object whose content is the exact JSON serialization (not HTML-escaped),
and `render({structuredData:[{"@type":"Thing"\x7d]\x7d)` is exactly the
claimed script-tag string. -/
theorem structured_data_roundtrip :
    (∀ sd : List Value, sd.isEmpty = false →
      seoTags { structuredData := some sd } = sd.map structuredDataTag) ∧
    (∀ v : Value, structuredDataTag v =
      "<script type=\"application/ld+json\">" ++ jsonStringify v ++ "</script>") ∧
    generateSeoMarkup { structuredData := some [Value.obj [("@type", Value.str "Thing")]] } =
      "<script type=\"application/ld+json\">\x7b\"@type\":\"Thing\"\x7d</script>" := by
  refine ⟨?_, fun v => rfl, rfl⟩
  intro sd hsd
  simp [seoTags, strTruthy, strVal, hsd, robotsContent]

/-- Witness for `structured_data_roundtrip`, at the spec's example
object. -/
theorem structured_data_roundtrip_witness :
    seoTags { structuredData := some [Value.obj [("@type", Value.str "Thing")]] } =
      [Value.obj [("@type", Value.str "Thing")]].map structuredDataTag :=
  structured_data_roundtrip.1 [Value.obj [("@type", Value.str "Thing")]] rfl

/-- **C5** — Reconciler idempotence via serialized-config skip: whatever
the first client invocation does, a second consecutive invocation with
the same configuration (hence a byte-identical `JSON.stringify`) leaves
the instance state and the head untouched and performs zero DOM
mutations. -/
theorem reconcile_skip_idempotent (cfg : SeoConfig) (inst : InstSt) (d : Dom) :
    reconcile false cfg (reconcile false cfg inst d).1
        (reconcile false cfg inst d).2.1 =
      ((reconcile false cfg inst d).1, (reconcile false cfg inst d).2.1, 0) := by
  unfold reconcile
  by_cases h : stringifyConfig cfg = inst.prev
  · simp [h]
  · simp [h]

/-- **C9** — Non-browser safety: on the server the reactive entry point
returns its inputs unchanged with zero DOM mutations, and `upsertTag`
itself also returns early without touching the head. -/
theorem server_noop :
    (∀ (cfg : SeoConfig) (inst : InstSt) (d : Dom),
      reconcile true cfg inst d = (inst, d, 0)) ∧
    (∀ (st : PassSt) (tag k v : String) (attrs : List (String × String)),
      upsertTag true st tag k v attrs = st) :=
  ⟨fun _ _ _ => rfl, fun _ _ _ _ _ => rfl⟩

/-! ## A heap model of `deepMerge` for the purity claim

`deepMerge` is a JavaScript function over mutable objects; to state that
it mutates neither input we model the JavaScript heap explicitly:
addresses, a store mapping addresses to objects (field lists over
primitive values and references), and an allocation counter.  Primitive
leaves carry a `Value`; `Array.isArray` is a flag on the stored object.
Recursion through the heap may diverge on cyclic inputs (as the real
`deepMerge` does), so the model is fuel-indexed. -/

/-- A JavaScript runtime value: a primitive or a reference into the
heap. -/
inductive HVal where
  | prim (v : Value)
  | ref (a : Nat)

/-- A heap-allocated object: its fields in insertion order, and whether
it is an array. -/
structure HObj where
  isArr : Bool
  fields : List (String × HVal)

structure Heap where
  objs : List (Nat × HObj)
  next : Nat

def lookupObj (h : Heap) (a : Nat) : Option HObj :=
  (h.objs.find? (fun p => p.1 == a)).map Prod.snd

/-- Allocate a fresh object, returning its address. -/
def allocObj (h : Heap) (o : HObj) : Heap × Nat :=
  (⟨h.objs ++ [(h.next, o)], h.next + 1⟩, h.next)

def lookupHField : List (String × HVal) → String → Option HVal
  | [], _ => none
  | (k, v) :: rest, key => if k = key then some v else lookupHField rest key

def setHField : List (String × HVal) → String → HVal → List (String × HVal)
  | [], key, v => [(key, v)]
  | (k, w) :: rest, key, v =>
      if k = key then (k, v) :: rest else (k, w) :: setHField rest key v

/-- `typeof x === 'object' && x !== null && !Array.isArray(x)` in the
heap model: a reference to a non-array object. -/
def isPlainObjRef (h : Heap) : HVal → Bool
  | .ref a => match lookupObj h a with
    | some o => !o.isArr
    | none => false
  | .prim _ => false

/-- The pair of addresses when both the source value and the target
value are references (the only case in which `deepMerge` can recurse). -/
def refPair : HVal → Option HVal → Option (Nat × Nat)
  | HVal.ref p, some (HVal.ref q) => some (p, q)
  | _, _ => none

/-! `deepMergeRef fuel h ta sa` models `deepMerge(target, source)` where
`ta`/`sa` are the addresses of the two argument objects: it copies the
target's fields (`{ ...target \x7d`), walks the source's fields
(recursively merging where both sides hold plain-object references,
overwriting otherwise), allocates the result as a fresh object and
returns its address.  `mergeHFields` is the loop; `tf` is the original
target field list. -/

mutual

def deepMergeRef : Nat → Heap → Nat → Nat → Option (Heap × Nat)
  | 0, _, _, _ => none
  | fuel + 1, h, ta, sa =>
      match lookupObj h ta, lookupObj h sa with
      | some tObj, some sObj =>
          match mergeHFields fuel h tObj.fields tObj.fields sObj.fields with
          | some (h', fs) => some (allocObj h' ⟨false, fs⟩)
          | none => none
      | _, _ => none
termination_by fuel _ _ _ => (fuel, 0, 0)

def mergeHFields : Nat → Heap → List (String × HVal) → List (String × HVal) →
    List (String × HVal) → Option (Heap × List (String × HVal))
  | _, h, _, res, [] => some (h, res)
  | fuel, h, tf, res, (k, sv) :: rest =>
      match refPair sv (lookupHField tf k) with
      | some (p, q) =>
          if isPlainObjRef h (HVal.ref p) && isPlainObjRef h (HVal.ref q) then
            match deepMergeRef fuel h q p with
            | some (h', r) =>
                mergeHFields fuel h' tf (setHField res k (HVal.ref r)) rest
            | none => none
          else mergeHFields fuel h tf (setHField res k sv) rest
      | none => mergeHFields fuel h tf (setHField res k sv) rest
termination_by fuel _ _ _ src => (fuel, 1, src.length)

end

/-- Heap well-formedness: every allocated address is below the
allocation counter. -/
def HeapWF (h : Heap) : Prop := ∀ p ∈ h.objs, p.1 < h.next

/-- `h'` extends `h`: the allocation counter grew and every address
bound in `h` is bound to the same object in `h'`. -/
def heapExtends (h h' : Heap) : Prop :=
  h.next ≤ h'.next ∧ ∀ a, lookupObj h a ≠ none → lookupObj h' a = lookupObj h a

theorem heapExtends_refl (h : Heap) : heapExtends h h :=
  ⟨le_refl _, fun _ _ => rfl⟩

theorem heapExtends_trans {h1 h2 h3 : Heap} (e1 : heapExtends h1 h2)
    (e2 : heapExtends h2 h3) : heapExtends h1 h3 := by
  refine ⟨le_trans e1.1 e2.1, fun a ha => ?_⟩
  have h12 := e1.2 a ha
  have : lookupObj h2 a ≠ none := by rw [h12]; exact ha
  rw [e2.2 a this, h12]

theorem find?_append_left {α : Type} {l1 l2 : List α} {p : α → Bool}
    (h : l1.find? p ≠ none) : (l1 ++ l2).find? p = l1.find? p := by
  induction l1 with
  | nil => simp [List.find?] at h
  | cons x xs ih =>
    by_cases hx : p x
    · simp [List.find?, hx]
    · simp only [List.find?, hx, List.cons_append] at *
      simp only [Bool.false_eq_true, if_neg, cond_false] at *
      exact ih h

theorem heapExtends_alloc (h : Heap) (o : HObj) :
    heapExtends h (allocObj h o).1 := by
  refine ⟨Nat.le_succ _, fun a ha => ?_⟩
  simp only [lookupObj, allocObj] at *
  rw [find?_append_left]
  intro hf
  rw [hf] at ha
  simp at ha

theorem deepMergeRef_extends : ∀ fuel : Nat,
    (∀ (h : Heap) (ta sa : Nat) (h' : Heap) (r : Nat),
      deepMergeRef fuel h ta sa = some (h', r) →
      heapExtends h h' ∧ h.next ≤ r) ∧
    (∀ (src : List (String × HVal)) (h : Heap) (tf res : List (String × HVal))
      (h' : Heap) (fs : List (String × HVal)),
      mergeHFields fuel h tf res src = some (h', fs) →
      heapExtends h h') := by
  intro fuel
  induction fuel with
  | zero =>
    constructor
    · intro h ta sa h' r hm
      simp [deepMergeRef] at hm
    · intro src
      induction src with
      | nil =>
        intro h tf res h' fs hm
        simp only [mergeHFields, Option.some.injEq, Prod.mk.injEq] at hm
        rw [← hm.1]
        exact heapExtends_refl h
      | cons p rest ih =>
        intro h tf res h' fs hm
        obtain ⟨k, sv⟩ := p
        rw [mergeHFields] at hm
        split at hm
        · split at hm
          · split at hm
            · rename_i h2 r hdm
              simp [deepMergeRef] at hdm
            · exact absurd hm (by simp)
          · exact ih h tf _ h' fs hm
        · exact ih h tf _ h' fs hm
  | succ n ihn =>
    have href : ∀ (h : Heap) (ta sa : Nat) (h' : Heap) (r : Nat),
        deepMergeRef (n + 1) h ta sa = some (h', r) →
        heapExtends h h' ∧ h.next ≤ r := by
      intro h ta sa h' r hm
      rw [deepMergeRef] at hm
      split at hm
      · split at hm
        · rename_i h2 fs hmf
          simp only [Option.some.injEq, allocObj, Prod.mk.injEq] at hm
          have hext : heapExtends h h2 := ihn.2 _ h _ _ _ _ hmf
          constructor
          · rw [← hm.1]
            exact heapExtends_trans hext (heapExtends_alloc h2 ⟨false, fs⟩)
          · rw [← hm.2]
            exact le_trans hext.1 (le_refl _)
        · exact absurd hm (by simp)
      · exact absurd hm (by simp)
    refine ⟨href, ?_⟩
    intro src
    induction src with
    | nil =>
      intro h tf res h' fs hm
      simp only [mergeHFields, Option.some.injEq, Prod.mk.injEq] at hm
      rw [← hm.1]
      exact heapExtends_refl h
    | cons p rest ih =>
      intro h tf res h' fs hm
      obtain ⟨k, sv⟩ := p
      rw [mergeHFields] at hm
      split at hm
      · split at hm
        · split at hm
          · rename_i h2 r hdm
            have e1 : heapExtends h h2 := (href h _ _ h2 r hdm).1
            have e2 : heapExtends h2 h' := ih h2 tf _ h' fs hm
            exact heapExtends_trans e1 e2
          · exact absurd hm (by simp)
        · exact ih h tf _ h' fs hm
      · exact ih h tf _ h' fs hm

/-- **C10** — `deepMerge` is pure with respect to its arguments: in the
heap model, whenever `deepMergeRef` succeeds on a well-formed heap,
every address bound before the call is bound to the identical object
afterwards (so neither the target nor the source object graph is
mutated), and the returned address is fresh (unbound in the input
heap). -/
theorem deepMerge_pure (fuel : Nat) (h : Heap) (ta sa : Nat) (h' : Heap)
    (r : Nat) (hwf : HeapWF h)
    (hm : deepMergeRef fuel h ta sa = some (h', r)) :
    (∀ a, lookupObj h a ≠ none → lookupObj h' a = lookupObj h a) ∧
    lookupObj h r = none := by
  obtain ⟨⟨hnext, hpres⟩, hr⟩ := (deepMergeRef_extends fuel).1 h ta sa h' r hm
  refine ⟨hpres, ?_⟩
  rcases hf : h.objs.find? (fun p => p.1 == r) with _ | p
  · simp [lookupObj, hf]
  · exfalso
    have hmem : p ∈ h.objs := List.mem_of_find?_eq_some hf
    have hpr : p.1 = r := by
      have := List.find?_some hf
      simpa using this
    have := hwf p hmem
    omega

/-- Concrete input for the `deepMerge_pure` witness: target
`{title:"A", twitter: obj@1\x7d` at address 0 with `obj@1 =
{site:"@x"\x7d`, source `{twitter: obj@3\x7d` at address 2 with
`obj@3 = {card:"summary"\x7d`. -/
def heapW : Heap :=
  ⟨[(0, ⟨false, [("title", HVal.prim (Value.str "A")), ("twitter", HVal.ref 1)]⟩),
    (1, ⟨false, [("site", HVal.prim (Value.str "@x"))]⟩),
    (2, ⟨false, [("twitter", HVal.ref 3)]⟩),
    (3, ⟨false, [("card", HVal.prim (Value.str "summary"))]⟩)], 4⟩

/-- The heap after `deepMergeRef 3 heapW 0 2`: the four input objects
unchanged, plus the recursively merged twitter object at 4 and the
result at 5. -/
def heapW' : Heap :=
  ⟨[(0, ⟨false, [("title", HVal.prim (Value.str "A")), ("twitter", HVal.ref 1)]⟩),
    (1, ⟨false, [("site", HVal.prim (Value.str "@x"))]⟩),
    (2, ⟨false, [("twitter", HVal.ref 3)]⟩),
    (3, ⟨false, [("card", HVal.prim (Value.str "summary"))]⟩),
    (4, ⟨false, [("site", HVal.prim (Value.str "@x")),
                 ("card", HVal.prim (Value.str "summary"))]⟩),
    (5, ⟨false, [("title", HVal.prim (Value.str "A")), ("twitter", HVal.ref 4)]⟩)],
   6⟩

/-- Witness for `deepMerge_pure` at a concrete merge exercising the
recursive-object case. -/
theorem deepMerge_pure_witness :
    (∀ a, lookupObj heapW a ≠ none → lookupObj heapW' a = lookupObj heapW a) ∧
    lookupObj heapW 5 = none :=
  deepMerge_pure 3 heapW 0 2 heapW' 5
    (by intro p hp; fin_cases hp <;> simp [heapW])
    (by simp [deepMergeRef, mergeHFields, refPair, allocObj, lookupObj,
      lookupHField, setHField, isPlainObjRef, Option.map, List.find?,
      heapW, heapW'])

/-! ## The reconciler ownership invariant (C1)

The pass deletes head elements in exactly five places, all of the form
`clearNotAdded`: the `og:image*` prefix clear, the per-nested-array
`meta[property="og:<key>:<nested>"]` clears, the structured-data clear
and the two extras clears.  `wholesaleEl` is a predicate covering every
element those selectors can match: a meta whose `property` starts with
`og:image`, or a meta whose `property` starts with `og:` and has a
further colon-delimited segment (the shape `og:<key>:<nested>` of the
nested-array selectors — a single-segment property such as `og:title`
is *not* wholesale and is protected), or any element whose
`data-metafy` starts with `structured-`, `extra-meta` or `extra-link`. -/

def wholesaleEl (e : El) : Bool :=
  (e.tag == "meta" &&
    (match lookupAttr e.attrs "property" with
     | some v => begins v "og:image" ||
         (begins v "og:" && (v.data.drop 3).any (fun c => c = ':'))
     | none => false)) ||
  (match lookupAttr e.attrs "data-metafy" with
   | some v => begins v "structured-" || begins v "extra-meta" ||
       begins v "extra-link"
   | none => false)

theorem isPrefixOf_append (l m : List Char) : List.isPrefixOf l (l ++ m) = true := by
  induction l with
  | nil => simp [List.isPrefixOf]
  | cons c rest ih => simp [List.isPrefixOf, ih]

theorem begins_of_begins_append (v : String) (a b : String)
    (h : begins v (a ++ b) = true) : begins v a = true := by
  simp only [begins, List.isPrefixOf_iff_prefix] at *
  have hd : (a ++ b).data = a.data ++ b.data := String.data_append a b
  rw [hd] at h
  exact List.IsPrefix.trans (List.prefix_append a.data b.data) h

theorem begins_append_self (a b : String) : begins (a ++ b) a = true := by
  simp only [begins]
  rw [String.data_append a b]
  exact isPrefixOf_append a.data b.data

theorem isOgImageEl_wholesale (e : El) (h : isOgImageEl e = true) :
    wholesaleEl e = true := by
  simp only [isOgImageEl, Bool.and_eq_true] at h
  obtain ⟨htag, hprop⟩ := h
  rcases hl : lookupAttr e.attrs "property" with _ | v
  · rw [hl] at hprop; simp at hprop
  · rw [hl] at hprop
    simp only at hprop
    simp [wholesaleEl, htag, hl, hprop]

theorem isPropEl_og_wholesale (e : El) (key nk : String)
    (h : isPropEl ("og:" ++ key ++ ":" ++ nk) e = true) : wholesaleEl e = true := by
  simp only [isPropEl, Bool.and_eq_true, beq_iff_eq] at h
  obtain ⟨htag, hprop⟩ := h
  have hassoc : ("og:" ++ key ++ ":" ++ nk : String) =
      "og:" ++ (key ++ (":" ++ nk)) := by
    rw [String.append_assoc, String.append_assoc]
  have hb : begins ("og:" ++ key ++ ":" ++ nk) "og:" = true := by
    rw [hassoc]
    exact begins_append_self "og:" (key ++ (":" ++ nk))
  have hc : ((("og:" ++ key ++ ":" ++ nk : String)).data.drop 3).any
      (fun c => c = ':') = true := by
    apply List.any_eq_true.mpr
    refine ⟨':', ?_, by decide⟩
    rw [hassoc, String.data_append]
    show ':' ∈ ((key ++ (":" ++ nk) : String).data)
    rw [String.data_append]
    refine List.mem_append_right _ ?_
    rw [String.data_append]
    exact List.mem_append_left _ (List.mem_singleton_self _)
  simp [wholesaleEl, htag, hprop, hb, hc]

theorem isStructuredEl_wholesale (e : El) (h : isStructuredEl e = true) :
    wholesaleEl e = true := by
  simp only [isStructuredEl, Bool.and_eq_true] at h
  rcases hl : lookupAttr e.attrs "data-metafy" with _ | v
  · rw [hl] at h; simp at h
  · rw [hl] at h
    simp only at h
    simp [wholesaleEl, hl, h.2]

theorem isExtraMetaEl_wholesale (e : El) (h : isExtraMetaEl e = true) :
    wholesaleEl e = true := by
  simp only [isExtraMetaEl, Bool.and_eq_true] at h
  rcases hl : lookupAttr e.attrs "data-metafy" with _ | v
  · rw [hl] at h; simp at h
  · rw [hl] at h
    simp only at h
    simp [wholesaleEl, hl, h.2]

theorem isExtraLinkEl_wholesale (e : El) (h : isExtraLinkEl e = true) :
    wholesaleEl e = true := by
  simp only [isExtraLinkEl, Bool.and_eq_true] at h
  rcases hl : lookupAttr e.attrs "data-metafy" with _ | v
  · rw [hl] at h; simp at h
  · rw [hl] at h
    simp only at h
    simp [wholesaleEl, hl, h.2]

/-- The invariant a reconciliation pass maintains over the pass state,
relative to the head `d0` the pass started from:
`survive`: every pre-existing element outside the wholesale-replaced
categories is still present (same identity, still outside them);
`provenance`: every element in the head either pre-existed or is in the
ownership record; `addedFresh`/`ctrMono`/`wf`/`nodup`: recorded elements
carry fresh identities and identities stay unique and below the
allocation counter. -/
structure PassInv (d0 : Dom) (st : PassSt) : Prop where
  survive : ∀ e ∈ d0.els, wholesaleEl e = false →
    ∃ e' ∈ st.dom.els, e'.id = e.id ∧ wholesaleEl e' = false
  provenance : ∀ e' ∈ st.dom.els, (∃ e ∈ d0.els, e.id = e'.id) ∨ e'.id ∈ st.added
  addedFresh : ∀ i ∈ st.added, d0.nextId ≤ i
  ctrMono : d0.nextId ≤ st.dom.nextId
  wf : ∀ e' ∈ st.dom.els, e'.id < st.dom.nextId
  nodup : (st.dom.els.map El.id).Nodup

theorem passInv_init (d0 : Dom) (hwf : ∀ e ∈ d0.els, e.id < d0.nextId)
    (hnd : (d0.els.map El.id).Nodup) : PassInv d0 ⟨d0, [], 0⟩ where
  survive := fun e he hw => ⟨e, he, rfl, hw⟩
  provenance := fun e' he' => Or.inl ⟨e', he', rfl⟩
  addedFresh := fun i hi => absurd hi (List.not_mem_nil i)
  ctrMono := le_refl _
  wf := hwf
  nodup := hnd

theorem foldlPassInv {α : Type} (d0 : Dom) (f : PassSt → α → PassSt)
    (hstep : ∀ st a, PassInv d0 st → PassInv d0 (f st a)) :
    ∀ (l : List α) (st : PassSt), PassInv d0 st → PassInv d0 (l.foldl f st)
  | [], st, hinv => hinv
  | a :: rest, st, hinv =>
      foldlPassInv d0 f hstep rest (f st a) (hstep st a hinv)

theorem clearNotAdded_inv (d0 : Dom) (st : PassSt) (p : El → Bool)
    (hp : ∀ e, p e = true → wholesaleEl e = true) (hinv : PassInv d0 st) :
    PassInv d0 (clearNotAdded st p) where
  survive := by
    intro e he hw
    obtain ⟨e', he', hid, hw'⟩ := hinv.survive e he hw
    refine ⟨e', ?_, hid, hw'⟩
    simp only [clearNotAdded, List.mem_filter]
    refine ⟨he', ?_⟩
    have hpe : p e' = false := by
      rcases hpe : p e' with _ | _
      · rfl
      · rw [hp e' hpe] at hw'; simp at hw'
    simp [hpe]
  provenance := by
    intro e' he'
    simp only [clearNotAdded, List.mem_filter] at he'
    exact hinv.provenance e' he'.1
  addedFresh := hinv.addedFresh
  ctrMono := hinv.ctrMono
  wf := by
    intro e' he'
    simp only [clearNotAdded, List.mem_filter] at he'
    exact hinv.wf e' he'.1
  nodup := by
    have hsub : List.Sublist (List.filter
        (fun e => !(p e && !(st.added.contains e.id))) st.dom.els) st.dom.els :=
      List.filter_sublist st.dom.els
    exact List.Nodup.sublist (List.Sublist.map El.id hsub) hinv.nodup

theorem setAttrList_id (l : List (String × String)) (k v : String) :
    lookupAttr (setAttrList l k v) k = some v := by
  induction l with
  | nil => simp [setAttrList, lookupAttr]
  | cons p rest ih =>
    by_cases h : p.1 = k
    · simp [setAttrList, lookupAttr, h]
    · simp [setAttrList, lookupAttr, h, ih]

theorem setAttrList_ne (l : List (String × String)) (k k' v : String)
    (h : k' ≠ k) : lookupAttr (setAttrList l k v) k' = lookupAttr l k' := by
  induction l with
  | nil => simp [setAttrList, lookupAttr, Ne.symm h]
  | cons p rest ih =>
    by_cases hp : p.1 = k
    · simp [setAttrList, lookupAttr, hp, Ne.symm h]
    · by_cases hp' : p.1 = k'
      · simp [setAttrList, lookupAttr, hp, hp', h]
      · simp [setAttrList, lookupAttr, hp, hp', ih]

theorem setAttr_id (e : El) (k v : String) : (e.setAttr k v).id = e.id := rfl

theorem setAttr_tag (e : El) (k v : String) : (e.setAttr k v).tag = e.tag := rfl

theorem setAttrs_id (attrs : List (String × String)) :
    ∀ e : El, (e.setAttrs attrs).id = e.id := by
  induction attrs with
  | nil => intro e; rfl
  | cons p rest ih =>
    intro e
    show (El.setAttrs (e.setAttr p.1 p.2) rest).id = e.id
    rw [ih]
    rfl

theorem setAttrs_tag (attrs : List (String × String)) :
    ∀ e : El, (e.setAttrs attrs).tag = e.tag := by
  induction attrs with
  | nil => intro e; rfl
  | cons p rest ih =>
    intro e
    show (El.setAttrs (e.setAttr p.1 p.2) rest).tag = e.tag
    rw [ih]
    rfl

theorem wholesaleEl_congr (e1 e2 : El) (htag : e1.tag = e2.tag)
    (hp : lookupAttr e1.attrs "property" = lookupAttr e2.attrs "property")
    (hd : lookupAttr e1.attrs "data-metafy" = lookupAttr e2.attrs "data-metafy") :
    wholesaleEl e1 = wholesaleEl e2 := by
  simp [wholesaleEl, htag, hp, hd]

/-- Setting the attributes of an upsert payload never touches
`data-metafy`, and touches `property` only to re-write the identifying
value the element already carries — so both lookups are preserved. -/
theorem setAttrs_keeps (key val : String) :
    ∀ (attrs : List (String × String)) (e : El),
    (∀ p ∈ attrs, p.1 ≠ "data-metafy" ∧
      (p.1 = "property" → key = "property" ∧ p.2 = val)) →
    (key = "property" → lookupAttr e.attrs "property" = some val) →
    lookupAttr (e.setAttrs attrs).attrs "property" =
      lookupAttr e.attrs "property" ∧
    lookupAttr (e.setAttrs attrs).attrs "data-metafy" =
      lookupAttr e.attrs "data-metafy"
  | [], e, _, _ => ⟨rfl, rfl⟩
  | q :: rest, e, h1, h3 => by
    have hq := h1 q (List.mem_cons_self q rest)
    have hdm : lookupAttr (e.setAttr q.1 q.2).attrs "data-metafy" =
        lookupAttr e.attrs "data-metafy" :=
      setAttrList_ne e.attrs q.1 "data-metafy" q.2 (Ne.symm hq.1)
    have hpr : lookupAttr (e.setAttr q.1 q.2).attrs "property" =
        lookupAttr e.attrs "property" := by
      by_cases hqp : q.1 = "property"
      · obtain ⟨hkey, hval⟩ := hq.2 hqp
        have hlk := h3 hkey
        show lookupAttr (setAttrList e.attrs q.1 q.2) "property" = _
        rw [hqp, hval, setAttrList_id, hlk]
      · exact setAttrList_ne e.attrs q.1 "property" q.2 (fun hh => hqp hh.symm)
    have h3' : key = "property" →
        lookupAttr (e.setAttr q.1 q.2).attrs "property" = some val := by
      intro hk
      rw [hpr]
      exact h3 hk
    have ih := setAttrs_keeps key val rest (e.setAttr q.1 q.2)
      (fun p hp => h1 p (List.mem_cons_of_mem q hp)) h3'
    show lookupAttr (El.setAttrs (e.setAttr q.1 q.2) rest).attrs "property" = _ ∧
      lookupAttr (El.setAttrs (e.setAttr q.1 q.2) rest).attrs "data-metafy" = _
    exact ⟨ih.1.trans hpr, ih.2.trans hdm⟩

theorem eq_of_id_eq (els : List El) (hnd : (els.map El.id).Nodup)
    {e1 e2 : El} (h1 : e1 ∈ els) (h2 : e2 ∈ els) (h : e1.id = e2.id) :
    e1 = e2 :=
  List.inj_on_of_nodup_map hnd h1 h2 h

/-- Appending one freshly-allocated element (identity = the allocation
counter) and recording it preserves the pass invariant, whatever the
mutation count. -/
theorem append_fresh_inv (d0 : Dom) (st : PassSt) (el0 : El) (m : Nat)
    (hid : el0.id = st.dom.nextId) (hinv : PassInv d0 st) :
    PassInv d0 ⟨⟨st.dom.els ++ [el0], st.dom.nextId + 1⟩,
      st.added ++ [st.dom.nextId], m⟩ where
  survive := by
    intro e he hw
    obtain ⟨e', he', hid', hw'⟩ := hinv.survive e he hw
    exact ⟨e', List.mem_append_left _ he', hid', hw'⟩
  provenance := by
    intro e' he'
    simp only [List.mem_append, List.mem_singleton] at he'
    rcases he' with he' | rfl
    · rcases hinv.provenance e' he' with h | h
      · exact Or.inl h
      · exact Or.inr (List.mem_append_left _ h)
    · refine Or.inr (List.mem_append_right _ ?_)
      rw [hid]
      exact List.mem_singleton_self _
  addedFresh := by
    intro i hi
    simp only [List.mem_append, List.mem_singleton] at hi
    rcases hi with hi | rfl
    · exact hinv.addedFresh i hi
    · exact hinv.ctrMono
  ctrMono := le_trans hinv.ctrMono (Nat.le_succ _)
  wf := by
    intro e' he'
    simp only [List.mem_append, List.mem_singleton] at he'
    rcases he' with he' | rfl
    · exact lt_trans (hinv.wf e' he') (Nat.lt_succ_self _)
    · rw [hid]; exact Nat.lt_succ_self _
  nodup := by
    simp only [List.map_append, List.map_cons, List.map_nil]
    rw [List.nodup_append]
    refine ⟨hinv.nodup, List.nodup_singleton _, ?_⟩
    intro i hi hj
    simp only [List.mem_singleton] at hj
    obtain ⟨e', he', hid'⟩ := List.mem_map.mp hi
    have := hinv.wf e' he'
    rw [hid] at hj
    omega

theorem createAppend_inv (d0 : Dom) (st : PassSt) (tag : String)
    (attrs : List (String × String)) (text : Option String)
    (hinv : PassInv d0 st) : PassInv d0 (createAppend st tag attrs text) :=
  append_fresh_inv d0 st _ _ rfl hinv

theorem upsertTag_inv (d0 : Dom) (st : PassSt) (tag key val : String)
    (attrs : List (String × String)) (hinv : PassInv d0 st)
    (hattrs : ∀ p ∈ attrs, p.1 ≠ "data-metafy" ∧
      (p.1 = "property" → key = "property" ∧ p.2 = val)) :
    PassInv d0 (upsertTag false st tag key val attrs) := by
  rw [upsertTag]
  simp only [if_neg (by simp : ¬ (false = true))]
  split
  · rename_i e hf
    have hmem : e ∈ st.dom.els := List.mem_of_find?_eq_some hf
    have hpred := List.find?_some hf
    simp only [Bool.and_eq_true, beq_iff_eq] at hpred
    have hkey : lookupAttr e.attrs key = some val := hpred.2
    have hfid : ∀ x : El,
        ((fun x => if x.id = e.id then x.setAttrs attrs else x) x).id = x.id := by
      intro x
      by_cases hxe : x.id = e.id
      · simp only [if_pos hxe, setAttrs_id]
      · simp only [if_neg hxe]
    refine ⟨?_, ?_, hinv.addedFresh, hinv.ctrMono, ?_, ?_⟩
    · intro e0 he0 hw
      obtain ⟨e', he', hid, hw'⟩ := hinv.survive e0 he0 hw
      refine ⟨(fun x => if x.id = e.id then x.setAttrs attrs else x) e',
        List.mem_map_of_mem _ he', ?_, ?_⟩
      · rw [hfid e', hid]
      · by_cases hxe : e'.id = e.id
        · have heq : e' = e := eq_of_id_eq st.dom.els hinv.nodup he' hmem hxe
          have hkeep := setAttrs_keeps key val attrs e' hattrs
            (fun hk => by rw [heq, ← hk]; exact hkey)
          simp only [if_pos hxe]
          rw [wholesaleEl_congr (e'.setAttrs attrs) e'
            (setAttrs_tag attrs e') hkeep.1 hkeep.2]
          exact hw'
        · simp only [if_neg hxe]
          exact hw'
    · intro e'' he''
      obtain ⟨x, hx, hfx⟩ := List.mem_map.mp he''
      rw [← hfx, hfid x]
      exact hinv.provenance x hx
    · intro e'' he''
      obtain ⟨x, hx, hfx⟩ := List.mem_map.mp he''
      rw [← hfx, hfid x]
      exact hinv.wf x hx
    · show (List.map El.id (List.map
        (fun x => if x.id = e.id then x.setAttrs attrs else x) st.dom.els)).Nodup
      rw [List.map_map, show (El.id ∘ fun x =>
        if x.id = e.id then x.setAttrs attrs else x) = El.id from funext hfid]
      exact hinv.nodup
  · exact append_fresh_inv d0 st _ _ (by rw [setAttrs_id]) hinv

theorem addMeta_inv (d0 : Dom) (st : PassSt) (k v c : String)
    (hk : k ≠ "data-metafy") (hinv : PassInv d0 st) :
    PassInv d0 (addMeta st k v c) := by
  rw [addMeta]
  split
  · exact hinv
  · apply upsertTag_inv d0 st "meta" k v _ hinv
    intro p hp
    rcases List.mem_cons.mp hp with rfl | hp
    · exact ⟨hk, fun hpk => ⟨hpk, rfl⟩⟩
    · rcases List.mem_singleton.mp hp with rfl
      exact ⟨by simp, fun hpk => absurd hpk (by simp)⟩

theorem addLink_inv (d0 : Dom) (st : PassSt) (rel href : String)
    (extra : List (String × String))
    (hextra : ∀ p ∈ extra, p.1 ≠ "data-metafy" ∧ p.1 ≠ "property")
    (hinv : PassInv d0 st) : PassInv d0 (addLink st rel href extra) := by
  rw [addLink]
  split
  · exact hinv
  · apply upsertTag_inv d0 st "link" "rel" rel _ hinv
    intro p hp
    rcases List.mem_cons.mp hp with rfl | hp
    · exact ⟨by simp, fun hpk => absurd hpk (by simp)⟩
    · rcases List.mem_cons.mp hp with rfl | hp
      · exact ⟨by simp, fun hpk => absurd hpk (by simp)⟩
      · obtain ⟨h1, h2⟩ := hextra p hp
        exact ⟨h1, fun hpk => absurd hpk h2⟩

theorem titleStep_inv (cfg : SeoConfig) (d0 : Dom) (st : PassSt)
    (hinv : PassInv d0 st) : PassInv d0 (titleStep cfg st) := by
  rw [titleStep]
  split
  · split
    · rename_i e hf
      have hmem : e ∈ st.dom.els := List.mem_of_find?_eq_some hf
      have hfid : ∀ x : El,
          ((fun x => if x.id = e.id then { x with text := some (titleText cfg) }
            else x) x).id = x.id := by
        intro x
        by_cases hxe : x.id = e.id
        · simp only [if_pos hxe]
        · simp only [if_neg hxe]
      refine ⟨?_, ?_, hinv.addedFresh, hinv.ctrMono, ?_, ?_⟩
      · intro e0 he0 hw
        obtain ⟨e', he', hid, hw'⟩ := hinv.survive e0 he0 hw
        refine ⟨(fun x => if x.id = e.id then { x with text := some (titleText cfg) }
          else x) e', List.mem_map_of_mem _ he', ?_, ?_⟩
        · rw [hfid e', hid]
        · by_cases hxe : e'.id = e.id
          · simp only [if_pos hxe]
            have : wholesaleEl { e' with text := some (titleText cfg) } =
                wholesaleEl e' := wholesaleEl_congr _ _ rfl rfl rfl
            rw [this]; exact hw'
          · simp only [if_neg hxe]; exact hw'
      · intro e'' he''
        obtain ⟨x, hx, hfx⟩ := List.mem_map.mp he''
        rw [← hfx, hfid x]
        exact hinv.provenance x hx
      · intro e'' he''
        obtain ⟨x, hx, hfx⟩ := List.mem_map.mp he''
        rw [← hfx, hfid x]
        exact hinv.wf x hx
      · show (List.map El.id (List.map (fun x =>
          if x.id = e.id then { x with text := some (titleText cfg) } else x)
            st.dom.els)).Nodup
        rw [List.map_map, show (El.id ∘ fun x =>
          if x.id = e.id then { x with text := some (titleText cfg) } else x) =
            El.id from funext hfid]
        exact hinv.nodup
    · exact createAppend_inv d0 st _ _ _ hinv
  · exact hinv

theorem imgStepR_inv (d0 : Dom) (st : PassSt) (img : OpenGraphImage)
    (hinv : PassInv d0 st) : PassInv d0 (imgStepR st img) := by
  rw [imgStepR]
  apply addMeta_inv d0 _ _ _ _ (by decide)
  have h2 : PassInv d0 (addMeta (addMeta st "property" "og:image" img.url)
      "property" "og:image:alt" (strVal img.alt)) :=
    addMeta_inv d0 _ _ _ _ (by decide) (addMeta_inv d0 _ _ _ _ (by decide) hinv)
  have h3 : PassInv d0 (match img.width with
      | some w => if w ≠ 0 then
          addMeta (addMeta (addMeta st "property" "og:image" img.url)
            "property" "og:image:alt" (strVal img.alt))
            "property" "og:image:width" (toString w)
        else addMeta (addMeta st "property" "og:image" img.url)
          "property" "og:image:alt" (strVal img.alt)
      | none => addMeta (addMeta st "property" "og:image" img.url)
          "property" "og:image:alt" (strVal img.alt)) := by
    rcases img.width with _ | w
    · exact h2
    · by_cases hw : w ≠ 0
      · simp only [if_pos hw]
        exact addMeta_inv d0 _ _ _ _ (by decide) h2
      · simp only [if_neg hw]
        exact h2
  rcases img.height with _ | hgt
  · exact h3
  · by_cases hh : hgt ≠ 0
    · simp only [if_pos hh]
      exact addMeta_inv d0 _ _ _ _ (by decide) h3
    · simp only [if_neg hh]
      exact h3

theorem ogItemStepR_inv (d0 : Dom) (key nk pfx : String) (st : PassSt)
    (it : OgItem) (hinv : PassInv d0 st) :
    PassInv d0 (ogItemStepR key nk pfx st it) := by
  rcases it with s | ⟨actor, role⟩
  · exact addMeta_inv d0 _ _ _ _ (by decide) hinv
  · rw [ogItemStepR]
    split
    · split
      · exact addMeta_inv d0 _ _ _ _ (by decide)
          (addMeta_inv d0 _ _ _ _ (by decide) hinv)
      · exact addMeta_inv d0 _ _ _ _ (by decide) hinv
    · exact hinv

theorem ogSubStepR_inv (d0 : Dom) (key : String) (st : PassSt)
    (entry : String × OgSubVal) (hinv : PassInv d0 st) :
    PassInv d0 (ogSubStepR key ("og:" ++ key) st entry) := by
  obtain ⟨nk, sv⟩ := entry
  rcases sv with s | items
  · rw [ogSubStepR]
    split
    · exact hinv
    · exact addMeta_inv d0 _ _ _ _ (by decide) hinv
  · rw [ogSubStepR]
    apply foldlPassInv d0 _ (fun st it h => ogItemStepR_inv d0 key nk _ st it h)
    apply clearNotAdded_inv d0 st _ _ hinv
    intro e he
    exact isPropEl_og_wholesale e key nk he

theorem ogStepR_inv (d0 : Dom) (st : PassSt) (entry : String × OgVal)
    (hinv : PassInv d0 st) : PassInv d0 (ogStepR st entry) := by
  obtain ⟨key, val⟩ := entry
  rcases val with s | l | fields
  · rw [ogStepR]
    split
    · exact hinv
    · exact addMeta_inv d0 _ _ _ _ (by decide) hinv
  · rw [ogStepR]
    split
    · apply foldlPassInv d0 _ (fun st img h => imgStepR_inv d0 st img h)
      exact clearNotAdded_inv d0 st _ isOgImageEl_wholesale hinv
    · exact hinv
  · rw [ogStepR]
    exact foldlPassInv d0 _
      (fun st en h => ogSubStepR_inv d0 key st en h) fields st hinv

theorem twStepR_inv (d0 : Dom) (st : PassSt) (entry : String × String)
    (hinv : PassInv d0 st) : PassInv d0 (twStepR st entry) := by
  obtain ⟨key, v⟩ := entry
  rw [twStepR]
  split
  · exact hinv
  · split
    · exact addMeta_inv d0 _ _ _ _ (by decide) hinv
    · exact addMeta_inv d0 _ _ _ _ (by decide) hinv

theorem structuredStepR_inv (d0 : Dom) (st : PassSt) (iv : Nat × Value)
    (hinv : PassInv d0 st) : PassInv d0 (structuredStepR st iv) :=
  createAppend_inv d0 st _ _ _ hinv

theorem extraMetaStepR_inv (d0 : Dom) (st : PassSt) (ix : Nat × ExtraMeta)
    (hinv : PassInv d0 st) : PassInv d0 (extraMetaStepR st ix) :=
  createAppend_inv d0 st _ _ _ hinv

theorem extraLinkStepR_inv (d0 : Dom) (st : PassSt) (ix : Nat × ExtraLink)
    (hinv : PassInv d0 st) : PassInv d0 (extraLinkStepR st ix) :=
  createAppend_inv d0 st _ _ _ hinv

theorem coreMetaStage_inv (cfg : SeoConfig) (d0 : Dom) (st : PassSt)
    (hinv : PassInv d0 st) : PassInv d0 (coreMetaStage cfg st) := by
  rw [coreMetaStage]
  exact addLink_inv d0 _ _ _ _ (by simp)
    (addMeta_inv d0 _ _ _ _ (by decide)
      (addMeta_inv d0 _ _ _ _ (by decide)
        (addMeta_inv d0 _ _ _ _ (by decide)
          (addMeta_inv d0 _ _ _ _ (by decide)
            (addMeta_inv d0 _ _ _ _ (by decide)
              (addMeta_inv d0 _ _ _ _ (by decide)
                (addMeta_inv d0 _ _ _ _ (by decide) hinv)))))))

theorem svStage_inv (cfg : SeoConfig) (d0 : Dom) (st : PassSt)
    (hinv : PassInv d0 st) : PassInv d0 (svStage cfg st) := by
  rw [svStage]
  split
  · exact addMeta_inv d0 _ _ _ _ (by decide)
      (addMeta_inv d0 _ _ _ _ (by decide)
        (addMeta_inv d0 _ _ _ _ (by decide)
          (addMeta_inv d0 _ _ _ _ (by decide) hinv)))
  · exact hinv

theorem fbStage_inv (cfg : SeoConfig) (d0 : Dom) (st : PassSt)
    (hinv : PassInv d0 st) : PassInv d0 (fbStage cfg st) := by
  rw [fbStage]
  split
  · exact addMeta_inv d0 _ _ _ _ (by decide) hinv
  · exact hinv

theorem altStage_inv (cfg : SeoConfig) (d0 : Dom) (st : PassSt)
    (hinv : PassInv d0 st) : PassInv d0 (altStage cfg st) := by
  rw [altStage]
  split
  · apply foldlPassInv d0 _ ?_ _ _ hinv
    intro st p h
    apply upsertTag_inv d0 st "link" "hreflang" p.1 _ h
    intro q hq
    rcases List.mem_cons.mp hq with rfl | hq
    · exact ⟨by decide, fun hpk => absurd hpk (by decide)⟩
    · rcases List.mem_cons.mp hq with rfl | hq
      · exact ⟨by simp, fun hpk => absurd hpk (by simp)⟩
      · rcases List.mem_singleton.mp hq with rfl
        exact ⟨by simp, fun hpk => absurd hpk (by simp)⟩
  · exact hinv

theorem iconsStage_inv (cfg : SeoConfig) (d0 : Dom) (st : PassSt)
    (hinv : PassInv d0 st) : PassInv d0 (iconsStage cfg st) := by
  rw [iconsStage]
  split
  · rename_i ic heq
    have h3 : PassInv d0 (addLink (addLink (addLink st "icon" (strVal ic.icon))
        "apple-touch-icon" (strVal ic.apple)) "manifest" (strVal ic.manifest)) :=
      addLink_inv d0 _ _ _ _ (by simp)
        (addLink_inv d0 _ _ _ _ (by simp)
          (addLink_inv d0 _ _ _ _ (by simp) hinv))
    split
    · apply addLink_inv d0 _ _ _ _ ?_ h3
      intro p hp
      rcases List.mem_singleton.mp hp with rfl
      exact ⟨by simp, by simp⟩
    · exact h3
  · exact hinv

theorem ogStage_inv (cfg : SeoConfig) (d0 : Dom) (st : PassSt)
    (hinv : PassInv d0 st) : PassInv d0 (ogStage cfg st) := by
  rw [ogStage]
  split
  · exact foldlPassInv d0 _ (fun st en h => ogStepR_inv d0 st en h) _ _ hinv
  · exact hinv

theorem twStage_inv (cfg : SeoConfig) (d0 : Dom) (st : PassSt)
    (hinv : PassInv d0 st) : PassInv d0 (twStage cfg st) := by
  rw [twStage]
  split
  · exact foldlPassInv d0 _ (fun st en h => twStepR_inv d0 st en h) _ _ hinv
  · exact hinv

theorem structuredStage_inv (cfg : SeoConfig) (d0 : Dom) (st : PassSt)
    (hinv : PassInv d0 st) : PassInv d0 (structuredStage cfg st) := by
  rw [structuredStage]
  split
  · split
    · exact hinv
    · apply foldlPassInv d0 _ (fun st iv h => structuredStepR_inv d0 st iv h)
      exact clearNotAdded_inv d0 st _ isStructuredEl_wholesale hinv
  · exact hinv

theorem extrasStage_inv (cfg : SeoConfig) (d0 : Dom) (st : PassSt)
    (hinv : PassInv d0 st) : PassInv d0 (extrasStage cfg st) := by
  rw [extrasStage]
  have h1 : PassInv d0 (clearNotAdded (clearNotAdded st isExtraMetaEl)
      isExtraLinkEl) :=
    clearNotAdded_inv d0 _ _ isExtraLinkEl_wholesale
      (clearNotAdded_inv d0 _ _ isExtraMetaEl_wholesale hinv)
  have h2 : PassInv d0 (match cfg.extraMeta with
      | some xs => (withIdx xs).foldl extraMetaStepR
          (clearNotAdded (clearNotAdded st isExtraMetaEl) isExtraLinkEl)
      | none => clearNotAdded (clearNotAdded st isExtraMetaEl) isExtraLinkEl) := by
    split
    · exact foldlPassInv d0 _
        (fun st ix h => extraMetaStepR_inv d0 st ix h) _ _ h1
    · exact h1
  split
  · exact foldlPassInv d0 _
      (fun st ix h => extraLinkStepR_inv d0 st ix h) _ _ h2
  · exact h2

theorem runPass_inv (cfg : SeoConfig) (d0 : Dom)
    (hwf : ∀ e ∈ d0.els, e.id < d0.nextId)
    (hnd : (d0.els.map El.id).Nodup) :
    PassInv d0 (runPass cfg d0) := by
  rw [runPass]
  exact extrasStage_inv cfg d0 _
    (structuredStage_inv cfg d0 _
      (twStage_inv cfg d0 _
        (ogStage_inv cfg d0 _
          (iconsStage_inv cfg d0 _
            (altStage_inv cfg d0 _
              (fbStage_inv cfg d0 _
                (svStage_inv cfg d0 _
                  (coreMetaStage_inv cfg d0 _
                    (titleStep_inv cfg d0 _ (passInv_init d0 hwf hnd))))))))))

/-- **C1 (amended)** — Ownership invariant of the reactive reconciler:
for a pass started on any well-formed head with a fresh (empty)
ownership record, (1) every pre-existing element outside the
wholesale-replaced categories (`meta[property^=og:image]`, metas whose
`property` has the nested-array shape `og:<key>:<nested>`, and elements
whose `data-metafy` starts with `structured-`, `extra-meta` or
`extra-link` — see `wholesaleEl`; a single-segment property such as
`og:title` is protected) is still in the head after the pass *and*
after detach, and (2) after detach every element of the head
pre-existed — i.e. every element the reconciler created during the pass
has been removed. -/
theorem reconciler_ownership (cfg : SeoConfig) (d0 : Dom)
    (hwf : ∀ e ∈ d0.els, e.id < d0.nextId)
    (hnd : (d0.els.map El.id).Nodup) :
    (∀ e ∈ d0.els, wholesaleEl e = false →
      ∃ e' ∈ (cleanup (runPass cfg d0).dom (runPass cfg d0).added).els,
        e'.id = e.id) ∧
    (∀ e' ∈ (cleanup (runPass cfg d0).dom (runPass cfg d0).added).els,
      ∃ e ∈ d0.els, e.id = e'.id) := by
  have hinv := runPass_inv cfg d0 hwf hnd
  constructor
  · intro e he hw
    obtain ⟨e', he', hid, hw'⟩ := hinv.survive e he hw
    refine ⟨e', ?_, hid⟩
    simp only [cleanup, List.mem_filter]
    refine ⟨he', ?_⟩
    have hlt : e'.id < d0.nextId := hid ▸ hwf e he
    have hnc : e'.id ∉ (runPass cfg d0).added := by
      intro hc
      have := hinv.addedFresh _ hc
      omega
    simp [hnc]
  · intro e'' he''
    simp only [cleanup, List.mem_filter] at he''
    obtain ⟨hmem, hnc⟩ := he''
    rcases hinv.provenance e'' hmem with h | h
    · exact h
    · exfalso
      simp [h] at hnc

/-- Concrete head for the `reconciler_ownership` witness: a pre-existing
description meta and a pre-existing single-segment `og:title` meta (the
latter outside the wholesale categories, so protected). -/
def domW1 : Dom :=
  ⟨[⟨0, "meta", [("name", "description"), ("content", "old")], none⟩,
    ⟨1, "meta", [("property", "og:title"), ("content", "t")], none⟩], 2⟩

/-- Concrete config for the `reconciler_ownership` witness. -/
def cfgW1 : SeoConfig :=
  { title := some "T",
    description := some "new",
    openGraph := some [("images", OgVal.imgs [{ url := "a" }])] }

/-- Witness for `reconciler_ownership` at a concrete head and config. -/
theorem reconciler_ownership_witness :
    (∀ e ∈ domW1.els, wholesaleEl e = false →
      ∃ e' ∈ (cleanup (runPass cfgW1 domW1).dom (runPass cfgW1 domW1).added).els,
        e'.id = e.id) ∧
    (∀ e' ∈ (cleanup (runPass cfgW1 domW1).dom (runPass cfgW1 domW1).added).els,
      ∃ e ∈ domW1.els, e.id = e'.id) :=
  reconciler_ownership cfgW1 domW1 (by decide) (by decide)

/-- Concrete head for the counterexample: a pre-existing (statically
authored) `meta[property="og:image"]`. -/
def domX : Dom :=
  ⟨[⟨0, "meta", [("property", "og:image"), ("content", "x")], none⟩], 1⟩

/-- Concrete config for the counterexample. -/
def cfgX : SeoConfig :=
  { openGraph := some [("images", OgVal.imgs [{ url := "a" }])] }

/-- **C1 (counterexample)** — the pre-existing element with identity 0
(a statically authored `og:image` meta) is never in the engine's
ownership record, yet after a single reconciliation pass it is gone from
the head: the `og:image` wholesale-replacement clear deletes
pre-existing elements that were never owned, refuting "an element is
removed only if it is in the engine's ownership record; pre-existing
elements are updated in place but never deleted". -/
theorem reconciler_ownership_counterexample :
    (domX.els.map El.id).contains 0 = true ∧
    (runPass cfgX domX).added.contains 0 = false ∧
    ((runPass cfgX domX).dom.els.map El.id).contains 0 = false := by
  decide

end Metafy
